import Mathlib

/-!
Verification of the error-tolerant source parser and symbol extractor
specified by this repository's fixtures and spec. The engine itself is not
part of the repository's sources (only its adversarial test fixtures are),
so every pipeline component below is modelled from the specification text:
the Encoding Normalizer, the Lexer with recovery, the Resilient Parser
state machine, the Symbol and Doc Extractor, the Resource Governor and the
Dependency Grapher. Text is represented as a list of character codes,
a source line as an indentation level plus stripped content, and machine
integers as Nat.
-/

namespace Insight

/-- Character codes of a string; inputs and names are lists of codes. -/
def strCodes (s : String) : List Nat := s.data.map Char.toNat

/-- A name, a piece of source text or a raw byte sequence. -/
abbrev Chars := List Nat

/-- Modelled from the spec: severity of a `Diagnostic` ({Error, Warning, Info}). -/
inductive Sev where
| err
| warn
| info
deriving DecidableEq, Repr

/-- Modelled from the spec: the diagnostic taxonomy of section 7. -/
inductive DiagKind where
| encodingFallback
| malformedToken
| indentationMismatch
| synError
| recursionLimitExceeded
| timeoutExceeded
| memoryLimitExceeded
| unresolvableImport
| importCycle
deriving DecidableEq, Repr

/-- Modelled from the spec: a diagnostic with kind, severity and a span
(here a half-open line range) attributable to the source. -/
structure Diagnostic where
  kind : DiagKind
  sev : Sev
  spanStart : Nat
  spanEnd : Nat
deriving DecidableEq, Repr

/-- Modelled from the spec: the kind of an extracted symbol. -/
inductive SymKind where
| func
| cls
| var
deriving DecidableEq, Repr

/-- Modelled from the spec: an extracted public-facing entity with dotted-path
name, kind, verbatim signature text, source line and nesting depth at the
point of declaration (0 means module top level). -/
structure Symbol where
  name : Chars
  kind : SymKind
  sig : Chars
  line : Nat
  depth : Nat
deriving DecidableEq, Repr

/-- A source line after lexing: indentation width plus stripped content. -/
structure Line where
  indent : Nat
  content : Chars
deriving DecidableEq, Repr

/-- Modelled from the spec: classification of a lexed line, playing the role
of the token-level look at a statement that drives the parser state machine. -/
inductive LineKind where
| blank
| comment
| importL (m : Chars)
| defH (n : Chars) (sig : Chars)
| classH (n : Chars)
| compoundH
| assignL (n : Chars)
| plain
| malformed
deriving DecidableEq, Repr

/-- Modelled from the spec: the tagged-variant syntax tree. `errorN` is the
ErrorNode marking a skipped malformed region: it carries the indentation at
which recovery began and the half-open line span that was discarded. -/
inductive Node where
| stmtN (line : Nat)
| importN (m : Chars) (line : Nat)
| assignN (n : Chars) (line : Nat)
| funcN (n : Chars) (sig : Chars) (line : Nat) (children : List Node)
| classN (n : Chars) (line : Nat) (children : List Node)
| compN (line : Nat) (children : List Node)
| errorN (ri a b : Nat)

/-- Kind of an open block on the parser stack. -/
inductive FrameKind where
| funcF (sig : Chars)
| classF
| compF
deriving DecidableEq, Repr

/-- An open block: header name (none for compound statements), kind,
header indentation and the children accumulated so far. -/
structure Frame where
  name : Option Chars
  kind : FrameKind
  indent : Nat
  headerLine : Nat
  children : List Node

/-- Modelled from the spec: the full parser and extractor state. The stack
lists open blocks innermost first; `recov` carries the indentation and start
line of an active recovery; `top` holds the module-level children; symbols,
diagnostics and import edges are appended in discovery order; `line` counts
consumed lines and `ents` counts created entities (the memory measure). -/
structure PSt where
  stack : List Frame
  recov : Option (Nat × Nat)
  top : List Node
  syms : List Symbol
  diags : List Diagnostic
  edges : List Chars
  line : Nat
  ents : Nat

/-- Modelled from the spec: the numeric limits supplied by the external
driver; `none` means the ceiling is not enforced. -/
structure Config where
  timeLimit : Option Nat
  memLimit : Option Nat
  depthLimit : Option Nat
deriving DecidableEq, Repr

/-- Modelled from the spec: the per-unit output record
`{ encoding, diagnostics, symbols, import_edges, truncated }`. -/
structure UnitOutput where
  encName : Chars
  diags : List Diagnostic
  syms : List Symbol
  edges : List Chars
  truncated : Bool
deriving DecidableEq, Repr

/-! ## Lexer with recovery, modelled from the spec

The lexer converts canonical text into a per-line view: indentation width
plus stripped content, which `classify` then sorts into the statement
classes the parser's state machine distinguishes. Indentation is carried on
each line rather than as separate indent/dedent tokens. -/

/-- Decide whether one code list starts with another. -/
def isPre : Chars → Chars → Bool
| [], _ => true
| _ :: _, [] => false
| a :: as, b :: bs => a = b && isPre as bs

/-- Split text into lines at newline (code 10). -/
def splitLines : Chars → List Chars
| [] => [[]]
| c :: rest =>
  if c = 10 then [] :: splitLines rest
  else
    match splitLines rest with
    | [] => [[c]]
    | l :: ls => (c :: l) :: ls

/-- Space (32) or carriage return (13). -/
def isSpc (c : Nat) : Bool := c = 32 || c = 13

/-- Strip trailing spaces and carriage returns. -/
def rstrip (c : Chars) : Chars := (c.reverse.dropWhile isSpc).reverse

/-- Build a `Line` from a raw lexed line: count the leading spaces, strip
the rest. -/
def mkLine (raw : Chars) : Line :=
  { indent := (raw.takeWhile (fun c => c = 32)).length
  , content := rstrip (raw.dropWhile (fun c => c = 32)) }

/-- Lex canonical text into lines. -/
def lexLines (txt : Chars) : List Line := (splitLines txt).map mkLine

/-- Identifier characters: letters, digits, underscore, non-ASCII. -/
def isIdentChar (c : Nat) : Bool :=
  (97 ≤ c && c ≤ 122) || (65 ≤ c && c ≤ 90) || (48 ≤ c && c ≤ 57) || c = 95 || 128 ≤ c

/-- The word `w` occurs at the start of `c` as a keyword: it is a code
sequence followed by end of line, a space, a colon or an opening paren. -/
def startsKw (w : String) (c : Chars) : Bool :=
  isPre (strCodes w) c &&
    match (c.drop (strCodes w).length).head? with
    | none => true
    | some d => d = 32 || d = 58 || d = 40

/-- The content begins with one of the compound-statement keywords. -/
def startsCompoundKw (c : Chars) : Bool :=
  startsKw "if" c || startsKw "elif" c || startsKw "else" c ||
  startsKw "for" c || startsKw "while" c || startsKw "with" c ||
  startsKw "try" c || startsKw "except" c || startsKw "finally" c ||
  startsKw "match" c

/-- The content begins with a recognized header keyword; together with
blank lines these start the trusted resynchronization boundaries. -/
def startsHeaderKw (c : Chars) : Bool :=
  startsKw "def" c || startsKw "class" c || startsCompoundKw c

/-- The stripped content ends with a colon (code 58). -/
def endsColon (c : Chars) : Bool := c.getLast? = some 58

/-- Leading identifier of a content fragment. -/
def takeIdent (c : Chars) : Chars := c.takeWhile isIdentChar

/-- Leading word (up to a space) of a content fragment, for import targets. -/
def takeWord (c : Chars) : Chars := c.takeWhile (fun d => !isSpc d)

/-- Verbatim signature text of a function header: everything from the first
opening paren up to, but not including, the final colon. -/
def sigOf (c : Chars) : Chars := (c.dropWhile (fun d => d ≠ 40)).dropLast

/-- Split an assignment `target = rhs`: succeeds when the first `=` is
present, is not part of `==`, and the part before it strips to a plain
nonempty identifier. Returns the target and the right-hand side. -/
def assignSplit (c : Chars) : Option (Chars × Chars) :=
  let lhs := c.takeWhile (fun d => d ≠ 61)
  let rest := c.dropWhile (fun d => d ≠ 61)
  match rest with
  | [] => none
  | _ :: rhs =>
    if rhs.head? = some 61 then none
    else
      let t := rstrip lhs
      if t ≠ [] && t.all isIdentChar then some (t, rhs) else none

/-- Modelled from the spec: classify one stripped line for the parser state
machine. Headers of the target grammar must end in a colon; a header missing
it, and an assignment with an empty right-hand side, are grammar
violations. -/
def classify (c : Chars) : LineKind :=
  if c = [] then .blank
  else if c.head? = some 35 then .comment
  else if startsKw "import" c then .importL (takeWord (c.drop 7))
  else if startsKw "from" c then .importL (takeWord (c.drop 5))
  else if startsKw "def" c then
    if endsColon c then .defH (takeIdent (c.drop 4)) (sigOf c) else .malformed
  else if startsKw "class" c then
    if endsColon c then .classH (takeIdent (c.drop 6)) else .malformed
  else if startsCompoundKw c then
    if endsColon c then .compoundH else .malformed
  else
    match assignSplit c with
    | some (n, rhs) => if rstrip rhs = [] then .malformed else .assignL n
    | none => .plain

/-! ## Resilient parser state machine, modelled from the spec

States `TopLevel` and `InBlock` are represented by the frame stack (empty
stack means top level); `Recovering` by the `recov` field. Symbols are
emitted in document order the moment their declaration header is accepted,
with a dotted path reflecting the enclosing named scopes, which realizes the
extractor's tree walk; error-node subtrees never hold declarations, so
nothing is extracted from them. -/

/-- Close an open frame into its syntax node. -/
def closeFrame (f : Frame) : Node :=
  match f.kind with
  | .funcF sig => .funcN (f.name.getD []) sig f.headerLine f.children
  | .classF => .classN (f.name.getD []) f.headerLine f.children
  | .compF => .compN f.headerLine f.children

/-- Append a node as a child of the innermost open frame, or to the module
children when the stack is empty. -/
def pushNodeSt (s : PSt) (n : Node) : PSt :=
  match s.stack with
  | [] => { s with top := s.top ++ [n], ents := s.ents + 1 }
  | f :: fs => { s with stack := { f with children := f.children ++ [n] } :: fs, ents := s.ents + 1 }

/-- Attach a freshly closed node to the innermost remaining frame and keep
closing frames while their header indentation is at least `i`; once the
stack empties the node joins the module children. -/
def popAttach (i : Nat) : List Frame → Node → List Node → Nat → List Frame × List Node × Nat
| [], n, top, ents => ([], top ++ [n], ents)
| g :: gs, n, top, ents =>
  if i ≤ g.indent then
    popAttach i gs (closeFrame { g with children := g.children ++ [n] }) top (ents + 1)
  else ({ g with children := g.children ++ [n] } :: gs, top, ents)

/-- Close every open frame whose header indentation is at least `i`,
attaching each closed node to its parent (or to the module children once the
stack empties). Returns the new stack, module children and entity count. -/
def popToAux (i : Nat) (st : List Frame) (top : List Node) (ents : Nat) :
    List Frame × List Node × Nat :=
  match st with
  | [] => ([], top, ents)
  | f :: fs =>
    if i ≤ f.indent then popAttach i fs (closeFrame f) top (ents + 1)
    else (f :: fs, top, ents)

/-- Close every open frame whose header indentation is at least `i`. -/
def popTo (i : Nat) (s : PSt) : PSt :=
  { s with stack := (popToAux i s.stack s.top s.ents).1
         , top := (popToAux i s.stack s.top s.ents).2.1
         , ents := (popToAux i s.stack s.top s.ents).2.2 }

/-- Dotted-path symbol name: the names of the enclosing named scopes,
outermost first, joined with dots (code 46). -/
def dottedName (stack : List Frame) (n : Chars) : Chars :=
  stack.foldl (fun acc f => match f.name with | some m => m ++ [46] ++ acc | none => acc) n

/-- Record the line's import target on the side channel; the grapher
consumes the token stream, so this happens in every parser state. -/
def recordEdge (s : PSt) (l : Line) : PSt :=
  match classify l.content with
  | .importL m => { s with edges := s.edges ++ [m] }
  | _ => s

/-- Emit a symbol. -/
def addSym (s : PSt) (y : Symbol) : PSt :=
  { s with syms := s.syms ++ [y], ents := s.ents + 1 }

/-- Emit a diagnostic. -/
def addDiag (s : PSt) (d : Diagnostic) : PSt :=
  { s with diags := s.diags ++ [d], ents := s.ents + 1 }

/-- Enter recovery at indentation `ri`, recording a SyntaxError at the
current line. -/
def startRecovery (s : PSt) (ri : Nat) : PSt :=
  { addDiag s ⟨.synError, .err, s.line, s.line + 1⟩ with recov := some (ri, s.line) }

/-- Modelled from the spec: a resynchronization boundary for a recovery that
began at indentation `ri` is a line indented at most `ri` that is blank or
begins with a recognized header keyword. -/
def isBoundary (ri : Nat) (l : Line) : Bool :=
  l.indent ≤ ri && (l.content = [] || startsHeaderKw l.content)

/-- The stack is already at the recursion-depth ceiling. -/
def overDepth (dl : Option Nat) (n : Nat) : Bool :=
  match dl with
  | none => false
  | some d => d ≤ n

/-- Open a block for an accepted header line: if the recursion-depth ceiling
is reached, the construct degrades into an error region (with a
RecursionLimitExceeded diagnostic) exactly like a syntax error; otherwise
the declared symbol (if any) is emitted and a frame is pushed. -/
def openBlock (dl : Option Nat) (s1 : PSt) (l : Line) (nm : Option Chars)
    (fk : FrameKind) (sy : Option Symbol) : PSt :=
  if overDepth dl s1.stack.length then
    { addDiag s1 ⟨.recursionLimitExceeded, .err, s1.line, s1.line + 1⟩ with
        recov := some (l.indent, s1.line) }
  else
    let s2 := match sy with | some y => addSym s1 y | none => s1
    { s2 with stack := ⟨nm, fk, l.indent, s2.line, []⟩ :: s2.stack, ents := s2.ents + 1 }

/-- Handle one line in the `TopLevel`/`InBlock` states: blank and comment
lines are skipped; any other line first closes the blocks it dedents out
of; an indented line with no enclosing block is a grammar violation; then
the line either opens a block (recursion depth permitting), emits a
declaration or statement node, or starts recovery. -/
def stepNormal (dl : Option Nat) (s : PSt) (l : Line) : PSt :=
  match classify l.content with
  | .blank => s
  | .comment => s
  | k =>
    let s1 := popTo l.indent s
    if s1.stack.isEmpty && l.indent != 0 then startRecovery s1 l.indent
    else
      match k with
      | .defH n sig =>
        openBlock dl s1 l (some n) (.funcF sig)
          (some ⟨dottedName s1.stack n, .func, sig, s1.line, s1.stack.length⟩)
      | .classH n =>
        openBlock dl s1 l (some n) .classF
          (some ⟨dottedName s1.stack n, .cls, [], s1.line, s1.stack.length⟩)
      | .compoundH => openBlock dl s1 l none .compF none
      | .importL m => pushNodeSt s1 (.importN m s1.line)
      | .assignL n =>
        if s1.stack.isEmpty then
          pushNodeSt (addSym s1 ⟨n, .var, [], s1.line, 0⟩) (.assignN n s1.line)
        else pushNodeSt s1 (.assignN n s1.line)
      | .malformed => startRecovery s1 l.indent
      | _ => pushNodeSt s1 (.stmtN s1.line)

/-- Modelled from the spec: one transition of the parser state machine on
the next line. In `Recovering`, lines are discarded until a
resynchronization boundary, where the discarded span closes as an ErrorNode
and the boundary line is processed normally; import targets are recorded in
every state. Each transition consumes exactly one line. -/
def step (dl : Option Nat) (s : PSt) (l : Line) : PSt :=
  let s0 := recordEdge s l
  let r :=
    match s0.recov with
    | some (ri, a) =>
      if isBoundary ri l then
        stepNormal dl (pushNodeSt { s0 with recov := none } (.errorN ri a s0.line)) l
      else s0
    | none => stepNormal dl s0 l
  { r with line := r.line + 1 }

/-- The initial parser state. -/
def initSt : PSt := ⟨[], none, [], [], [], [], 0, 0⟩

/-- Close a dangling recovery region at end of input. -/
def closeRecov (s : PSt) : PSt :=
  match s.recov with
  | some (ri, a) => pushNodeSt { s with recov := none } (.errorN ri a s.line)
  | none => s

/-- Terminal transition: any still-open blocks are closed implicitly. -/
def finalizeSt (s : PSt) : PSt := popTo 0 (closeRecov s)

/-- Run the ungoverned parser over lexed lines with a recursion ceiling. -/
def runLines (dl : Option Nat) (lines : List Line) : PSt :=
  finalizeSt (lines.foldl (step dl) initSt)

/-! ## Resource Governor, modelled from the spec

Wall-clock time is modelled as the count of lines consumed and peak memory
as the count of entities created; the recursion ceiling is enforced inside
`stepNormal` by converting an over-deep construct into an error region.
Exceeding the time or memory limit aborts the file with whatever was
produced so far; the recursion ceiling degrades gracefully instead. -/

/-- A counter has exceeded an optional ceiling. -/
def overLimit (o : Option Nat) (n : Nat) : Bool :=
  match o with
  | none => false
  | some k => k ≤ n

/-- Governed run: before each line the elapsed-time measure is checked, and
after each line the memory measure; on a violation the run stops and reports
which fatal-for-this-file condition fired. -/
def govGo (cfg : Config) : List Line → PSt → PSt × Option DiagKind
| [], s => (s, none)
| l :: ls, s =>
  if overLimit cfg.timeLimit s.line then (s, some .timeoutExceeded)
  else
    let s' := step cfg.depthLimit s l
    if overLimit cfg.memLimit s'.ents then (s', some .memoryLimitExceeded)
    else govGo cfg ls s'

/-! ## Encoding Normalizer, modelled from the spec

Raw bytes are decoded by the declared or inferred encoding: a UTF-8
byte-order mark wins, else an encoding declaration comment within the first
two lines, else the UTF-8 default. Undecodable sequences become the
replacement character (code 0xFFFD) and set the fallback flag; the
normalizer never rejects an input. -/

/-- Modelled from the spec: the character encodings of the recognizer
table. -/
inductive Enc where
| utf8
| latin1
| ascii
deriving DecidableEq, Repr

/-- A UTF-8 continuation byte. -/
def isCont (b : Nat) : Bool := 128 ≤ b && b ≤ 191

/-- Decode UTF-8 bytes to code points, substituting the replacement
character for every undecodable byte and flagging whether any substitution
happened. Each step consumes at least one byte, so fuel equal to the input
length always suffices. -/
def utf8Fuel : Nat → Chars → Chars × Bool
| 0, _ => ([], false)
| _ + 1, [] => ([], false)
| fuel + 1, b :: bs =>
  if b < 128 then
    match utf8Fuel fuel bs with
    | (cs, f) => (b :: cs, f)
  else if 194 ≤ b && b ≤ 223 then
    match bs with
    | b2 :: rest =>
      if isCont b2 then
        match utf8Fuel fuel rest with
        | (cs, f) => (((b - 192) * 64 + (b2 - 128)) :: cs, f)
      else
        match utf8Fuel fuel bs with
        | (cs, _) => (65533 :: cs, true)
    | [] => ([65533], true)
  else if 224 ≤ b && b ≤ 239 then
    match bs with
    | b2 :: b3 :: rest =>
      if isCont b2 && isCont b3 then
        match utf8Fuel fuel rest with
        | (cs, f) => (((b - 224) * 4096 + (b2 - 128) * 64 + (b3 - 128)) :: cs, f)
      else
        match utf8Fuel fuel bs with
        | (cs, _) => (65533 :: cs, true)
    | _ =>
      match utf8Fuel fuel bs with
      | (cs, _) => (65533 :: cs, true)
  else if 240 ≤ b && b ≤ 244 then
    match bs with
    | b2 :: b3 :: b4 :: rest =>
      if isCont b2 && isCont b3 && isCont b4 then
        match utf8Fuel fuel rest with
        | (cs, f) =>
          (((b - 240) * 262144 + (b2 - 128) * 4096 + (b3 - 128) * 64 + (b4 - 128)) :: cs, f)
      else
        match utf8Fuel fuel bs with
        | (cs, _) => (65533 :: cs, true)
    | _ =>
      match utf8Fuel fuel bs with
      | (cs, _) => (65533 :: cs, true)
  else
    match utf8Fuel fuel bs with
    | (cs, _) => (65533 :: cs, true)

/-- Decode UTF-8 bytes. -/
def utf8Go (bs : Chars) : Chars × Bool := utf8Fuel bs.length bs

/-- Decode bytes under an encoding from the recognizer table. Latin-1 maps
every byte to itself and can never fail; ASCII replaces every byte above
127. -/
def decodeWith : Enc → Chars → Chars × Bool
| .utf8, bs => utf8Go bs
| .latin1, bs => (bs, false)
| .ascii, bs =>
  (bs.map (fun b => if b < 128 then b else 65533), bs.any (fun b => 128 ≤ b))

/-- Find the start of the first occurrence of `pat` in `c`. -/
def findSub (pat : Chars) : Chars → Option Nat
| [] => if pat = [] then some 0 else none
| c :: cs =>
  if isPre pat (c :: cs) then some 0
  else (findSub pat cs).map (· + 1)

/-- Characters allowed in an encoding name. -/
def isEncChar (c : Nat) : Bool := isIdentChar c || c = 45

/-- Map a declared encoding name to the recognizer table. Unknown names fall
back to the UTF-8 default. -/
def encOfName (n : Chars) : Enc :=
  if n = strCodes "latin-1" || n = strCodes "latin1" || n = strCodes "iso-8859-1" then .latin1
  else if n = strCodes "ascii" then .ascii
  else .utf8

/-- Reported name of an encoding. -/
def encName : Enc → Chars
| .utf8 => strCodes "utf-8"
| .latin1 => strCodes "latin-1"
| .ascii => strCodes "ascii"

/-- Look for an encoding declaration comment `coding: NAME` within the first
two lines of the raw bytes. -/
def declaredEnc (bs : Chars) : Option Enc :=
  let firstTwo := ((splitLines bs).take 2).foldl (fun a l => a ++ l ++ [10]) []
  match findSub (strCodes "coding:") firstTwo with
  | none => none
  | some i =>
    let after := (firstTwo.drop (i + 7)).dropWhile isSpc
    some (encOfName (after.takeWhile isEncChar))

/-- The UTF-8 byte-order mark. -/
def bomBytes : Chars := [239, 187, 191]

/-- Modelled from the spec: the Encoding Normalizer. Returns canonical text,
the selected encoding's name and whether the replacement-character fallback
fired. -/
def normalize (bs : Chars) : Chars × Chars × Bool :=
  if isPre bomBytes bs then
    ((utf8Go (bs.drop 3)).1, encName .utf8, (utf8Go (bs.drop 3)).2)
  else
    ((decodeWith ((declaredEnc bs).getD .utf8) bs).1,
      encName ((declaredEnc bs).getD .utf8),
      (decodeWith ((declaredEnc bs).getD .utf8) bs).2)

/-! ## The per-unit pipeline -/

/-- The Info diagnostic recording that the replacement-character fallback
was used. -/
def encFallbackDiag : Diagnostic := ⟨.encodingFallback, .info, 0, 0⟩

/-- A fatal-for-this-file diagnostic of the Resource Governor. -/
def fatalDiag (k : DiagKind) (line : Nat) : Diagnostic := ⟨k, .err, line, line⟩

/-- Modelled from the spec: process one source unit under the configured
limits: normalize the bytes, lex, parse with recovery under the Resource
Governor, and assemble the output record. Failure is impossible by
construction; the worst outcome is a truncated record. -/
def processUnit (cfg : Config) (bs : Chars) : UnitOutput :=
  let nr := normalize bs
  let g := govGo cfg (lexLines nr.1) initSt
  let s2 := finalizeSt g.1
  { encName := nr.2.1
  , diags :=
      (if nr.2.2 then [encFallbackDiag] else []) ++ s2.diags ++
        (match g.2 with | some k => [fatalDiag k g.1.line] | none => [])
  , syms := s2.syms
  , edges := s2.edges
  , truncated := g.2.isSome }

/-- The same pipeline with the time and memory ceilings not enforced: the
reference run a truncated run is compared against. -/
def processUnitFull (dl : Option Nat) (bs : Chars) : UnitOutput :=
  let nr := normalize bs
  let s2 := runLines dl (lexLines nr.1)
  { encName := nr.2.1
  , diags := (if nr.2.2 then [encFallbackDiag] else []) ++ s2.diags
  , syms := s2.syms
  , edges := s2.edges
  , truncated := false }

/-- Process a list of lines with no limits enforced: the core
parse-and-extract function the line-level properties are stated about. -/
def processLines (lines : List Line) : UnitOutput :=
  let s2 := runLines none lines
  ⟨encName .utf8, s2.diags, s2.syms, s2.edges, false⟩

/-- The partial syntax tree produced for a list of lines. -/
def parseTree (lines : List Line) : List Node := (runLines none lines).top

/-- The unlimited configuration. -/
def cfgFree : Config := ⟨none, none, none⟩

/-! ## Import/Dependency Grapher, modelled from the spec

Edges are (source unit, imported name) pairs aggregated across the batch.
After all files are processed, a depth-first search with an on-stack marker
detects cycles over the edges whose target resolves to a unit of the batch;
each found cycle is reported once as a Diagnostic attached to one of its
participating files. -/

/-- The directed adjacency: `u` imports the batch unit `v`. -/
def succsOf (names : List Chars) (edges : List (Chars × Chars)) (u : Chars) : List Chars :=
  (edges.filter (fun e => e.1 = u && names.contains e.2)).map (·.2)

/-- The cycle through `u` read off the stack when the on-stack marker
fires. -/
def cycleAt (stk : List Chars) (u : Chars) : List Chars :=
  u :: (stk.takeWhile (fun v => v ≠ u)).reverse

/-- Fuel-indexed depth-first search with an on-stack marker, processing a
worklist of nodes reachable from the current stack head: a node already on
the stack closes a cycle; a visited node is skipped; otherwise its
successors are explored with the node pushed on the stack, after which the
node is marked visited. Every call consumes one unit of fuel. -/
def dfsF (names : List Chars) (edges : List (Chars × Chars)) :
    Nat → List Chars → List Chars → List Chars → List Chars × List (List Chars)
| 0, _, vis, _ => (vis, [])
| _ + 1, _, vis, [] => (vis, [])
| fuel + 1, stk, vis, u :: rest =>
  if stk.contains u then
    let r := dfsF names edges fuel stk vis rest
    (r.1, cycleAt stk u :: r.2)
  else if vis.contains u then dfsF names edges fuel stk vis rest
  else
    let r1 := dfsF names edges fuel (u :: stk) vis (succsOf names edges u)
    let r2 := dfsF names edges fuel stk (u :: r1.1) rest
    (r2.1, r1.2 ++ r2.2)

/-- Fuel that always suffices for the batch sizes the model is evaluated
at. -/
def graphFuel (names : List Chars) (edges : List (Chars × Chars)) : Nat :=
  (names.length + 1) * (edges.length + names.length + 2)

/-- Modelled from the spec: cycle detection over the batch edge set by
depth-first search from every unit. -/
def graphCycles (names : List Chars) (edges : List (Chars × Chars)) : List (List Chars) :=
  (names.foldl
    (fun acc u =>
      let r := dfsF names edges (graphFuel names edges) [] acc.1 [u]
      (r.1, acc.2 ++ r.2))
    (([], []) : List Chars × List (List Chars))).2

/-- Modelled from the spec: the batch output: per-unit outputs, the cycles
list, and one ImportCycle diagnostic per cycle attached to a participating
file. -/
structure BatchOut where
  units : List (Chars × UnitOutput)
  cycles : List (List Chars)
  cycleDiags : List (Chars × Diagnostic)
deriving Repr

/-- Modelled from the spec: process an ordered batch of units independently,
then run the grapher over the aggregated edge set. -/
def processBatch (cfg : Config) (units : List (Chars × Chars)) : BatchOut :=
  let outs := units.map (fun u => (u.1, processUnit cfg u.2))
  let names := units.map (·.1)
  let edges := outs.foldr (fun o acc => (o.2.edges.map (fun m => (o.1, m))) ++ acc) []
  let cycs := graphCycles names edges
  { units := outs
  , cycles := cycs
  , cycleDiags := cycs.map (fun c => (c.headD [], ⟨.importCycle, .warn, 0, 0⟩)) }

/-! ## Spec-side definitions

These definitions restate, independently of the engine model, the notions
the testable properties quantify over: projections of symbols that forget
source positions, diagnostic-kind counts, the top-level declarations of an
input, the import statements of an input, directed cycles of an edge set,
and well-formedness of an output record. -/

/-- A symbol with its source position forgotten: name, kind, signature and
nesting depth. Two runs of the engine over shifted copies of the same code
agree on this projection. -/
def symP (y : Symbol) : Chars × SymKind × Chars × Nat := (y.name, y.kind, y.sig, y.depth)

/-- Position-free view of a symbol list. -/
def symsP (l : List Symbol) : List (Chars × SymKind × Chars × Nat) := l.map symP

/-- The kinds of a diagnostic list, in order. -/
def kindsOf (ds : List Diagnostic) : List DiagKind := ds.map (·.kind)

/-- How many diagnostics of kind `k` a list holds. -/
def countKind (k : DiagKind) (ds : List Diagnostic) : Nat :=
  (ds.filter (fun d => d.kind = k)).length

/-- The line declares a class, function or simple-target assignment. -/
def isDeclLine (l : Line) : Bool :=
  match classify l.content with
  | .defH _ _ => true
  | .classH _ => true
  | .assignL _ => true
  | _ => false

/-- The declared name of a declaration line. -/
def declNameOf (l : Line) : Chars :=
  match classify l.content with
  | .defH n _ => n
  | .classH n => n
  | .assignL n => n
  | _ => []

/-- Spec side: the top-level declarations of an input are the declaration
lines written at indentation zero, in order. -/
def topDeclNames (lines : List Line) : List Chars :=
  (lines.filter (fun l => l.indent = 0 && isDeclLine l)).map declNameOf

/-- The names of the top-level symbols of a symbol list: those declared at
nesting depth zero. -/
def topNamesOf (ys : List Symbol) : List Chars :=
  (ys.filter (fun y => y.depth = 0)).map (·.name)

/-- The top-level symbols of an output: those declared at nesting depth
zero. -/
def topSymNames (o : UnitOutput) : List Chars := topNamesOf o.syms

/-- Spec side: every import statement of the input, anywhere in the file,
in order. -/
def importsOf (lines : List Line) : List Chars :=
  lines.filterMap (fun l =>
    match classify l.content with
    | .importL m => some m
    | _ => none)

/-- The import target recorded for one line. -/
def importDelta (l : Line) : List Chars :=
  match classify l.content with
  | .importL m => [m]
  | _ => []

/-- Spec side: a directed cycle of the resolvable-edge relation: a nonempty
list of units each importing the next, the last importing the first. -/
def IsCycle (names : List Chars) (edges : List (Chars × Chars)) : List Chars → Prop
| [] => False
| x :: xs => List.Chain (fun a b => b ∈ succsOf names edges a) x (xs ++ [x])

/-- Spec side: an edge set with no directed cycle among the batch units. -/
def Acyclic (names : List Chars) (edges : List (Chars × Chars)) : Prop :=
  ∀ c, ¬ IsCycle names edges c

/-- The number of lines the input lexes to. -/
def numLines (bs : Chars) : Nat := (lexLines (normalize bs).1).length

/-- Spec side: a well-formed output record for the given input: every
diagnostic carries an ordered span within the input's line range, every
symbol points at a line of the input, and the reported encoding comes from
the recognizer table. -/
def WellFormedOut (bs : Chars) (o : UnitOutput) : Prop :=
  (∀ d ∈ o.diags, d.spanStart ≤ d.spanEnd ∧ d.spanEnd ≤ numLines bs) ∧
  (∀ y ∈ o.syms, y.line < numLines bs) ∧
  (o.encName = encName .utf8 ∨ o.encName = encName .latin1 ∨ o.encName = encName .ascii)

/-- The children owned by a node. -/
def nodeChildren : Node → List Node
| .funcN _ _ _ cs => cs
| .classN _ _ cs => cs
| .compN _ cs => cs
| _ => []

mutual

/-- All ErrorNode records of a subtree: recovery start indentation and the
discarded half-open line span. -/
def errSpans : Node → List (Nat × Nat × Nat)
| .stmtN _ => []
| .importN _ _ => []
| .assignN _ _ => []
| .errorN ri a b => [(ri, a, b)]
| .funcN _ _ _ cs => errSpansL cs
| .classN _ _ cs => errSpansL cs
| .compN _ cs => errSpansL cs

/-- All ErrorNode records of a forest. -/
def errSpansL : List Node → List (Nat × Nat × Nat)
| [] => []
| n :: ns => errSpans n ++ errSpansL ns

end

/-- The ErrorNode records held anywhere in a parser state: in the module
children or in any open frame. -/
def stateErr (s : PSt) : List (Nat × Nat × Nat) :=
  errSpansL s.top ++ (s.stack.map (fun f => errSpansL f.children)).flatten

/-- The property C8 asserts of every ErrorNode: it closed either at end of
input or at a resynchronization boundary for the indentation at which its
recovery began. -/
def ErrOk (lines : List Line) (e : Nat × Nat × Nat) : Prop :=
  e.2.2 = lines.length ∨
    (e.2.2 < lines.length ∧ isBoundary e.1 (lines.getD e.2.2 ⟨0, []⟩) = true)

/-- Every ErrorNode of a mid-run state closed strictly inside the input at a
resynchronization boundary. -/
def ErrStrict (L : List Line) (e : Nat × Nat × Nat) : Prop :=
  e.2.2 < L.length ∧ isBoundary e.1 (L.getD e.2.2 ⟨0, []⟩) = true

/-- The control signature of an open frame: name, kind, indentation. -/
def frameSig (f : Frame) : Option Chars × FrameKind × Nat := (f.name, f.kind, f.indent)

/-- The control signature of a stack. -/
def stackSig (st : List Frame) : List (Option Chars × FrameKind × Nat) := st.map frameSig

/-- The control signature of a recovery state: its indentation, if any. -/
def recovSig (s : PSt) : Option Nat := s.recov.map Prod.fst

/-- The line kind is a well-formed block header. -/
def isHdrL : LineKind → Bool
| .defH _ _ => true
| .classH _ => true
| .compoundH => true
| _ => false

/-- The symbol a top-level header line declares. -/
def headerDelta (p : Line) (ln : Nat) : List Symbol :=
  match classify p.content with
  | .defH n sg => [⟨n, .func, sg, ln, 0⟩]
  | .classH n => [⟨n, .cls, [], ln, 0⟩]
  | _ => []

/-- The stack signature right after an accepted top-level header line. -/
def headerSig (p : Line) : List (Option Chars × FrameKind × Nat) :=
  match classify p.content with
  | .defH n sg => [(some n, .funcF sg, 0)]
  | .classH n => [(some n, .classF, 0)]
  | .compoundH => [(none, .compF, 0)]
  | _ => []

/-! ## Basic lemmas about the state-machine components -/

theorem pushNodeSt_syms (s : PSt) (n : Node) : (pushNodeSt s n).syms = s.syms := by
  cases h : s.stack <;> simp [pushNodeSt, h]

theorem pushNodeSt_diags (s : PSt) (n : Node) : (pushNodeSt s n).diags = s.diags := by
  cases h : s.stack <;> simp [pushNodeSt, h]

theorem pushNodeSt_edges (s : PSt) (n : Node) : (pushNodeSt s n).edges = s.edges := by
  cases h : s.stack <;> simp [pushNodeSt, h]

theorem pushNodeSt_line (s : PSt) (n : Node) : (pushNodeSt s n).line = s.line := by
  cases h : s.stack <;> simp [pushNodeSt, h]

theorem pushNodeSt_recov (s : PSt) (n : Node) : (pushNodeSt s n).recov = s.recov := by
  cases h : s.stack <;> simp [pushNodeSt, h]

theorem popTo_syms (i : Nat) (s : PSt) : (popTo i s).syms = s.syms := rfl

theorem popTo_diags (i : Nat) (s : PSt) : (popTo i s).diags = s.diags := rfl

theorem popTo_edges (i : Nat) (s : PSt) : (popTo i s).edges = s.edges := rfl

theorem popTo_line (i : Nat) (s : PSt) : (popTo i s).line = s.line := rfl

theorem popTo_recov (i : Nat) (s : PSt) : (popTo i s).recov = s.recov := rfl

theorem addSym_line (s : PSt) (y : Symbol) : (addSym s y).line = s.line := rfl

theorem addDiag_line (s : PSt) (d : Diagnostic) : (addDiag s d).line = s.line := rfl

theorem startRecovery_line (s : PSt) (ri : Nat) : (startRecovery s ri).line = s.line := rfl

theorem openBlock_line (dl : Option Nat) (s1 : PSt) (l : Line) (nm : Option Chars)
    (fk : FrameKind) (sy : Option Symbol) : (openBlock dl s1 l nm fk sy).line = s1.line := by
  unfold openBlock
  split_ifs
  · rfl
  · cases sy <;> rfl

theorem stepNormal_line (dl : Option Nat) (s : PSt) (l : Line) :
    (stepNormal dl s l).line = s.line := by
  unfold stepNormal
  cases h : classify l.content <;> simp only [h] <;>
    first
      | rfl
      | (split_ifs <;>
          simp [openBlock_line, startRecovery_line, pushNodeSt_line, popTo_line, addSym_line])

theorem step_line (dl : Option Nat) (s : PSt) (l : Line) :
    (step dl s l).line = s.line + 1 := by
  unfold step recordEdge
  cases hr : s.recov with
  | none =>
    cases h : classify l.content <;>
      simp [h, hr, stepNormal_line]
  | some p =>
    cases p with
    | mk ri a =>
      cases h : classify l.content <;>
        by_cases hb : isBoundary ri l = true <;>
          simp [h, hr, hb, stepNormal_line, pushNodeSt_line]

theorem addSym_syms (s : PSt) (y : Symbol) : (addSym s y).syms = s.syms ++ [y] := rfl

theorem addSym_diags (s : PSt) (y : Symbol) : (addSym s y).diags = s.diags := rfl

theorem addSym_edges (s : PSt) (y : Symbol) : (addSym s y).edges = s.edges := rfl

theorem startRecovery_syms (s : PSt) (ri : Nat) : (startRecovery s ri).syms = s.syms := rfl

theorem startRecovery_diags (s : PSt) (ri : Nat) :
    (startRecovery s ri).diags = s.diags ++ [⟨.synError, .err, s.line, s.line + 1⟩] := rfl

theorem startRecovery_edges (s : PSt) (ri : Nat) : (startRecovery s ri).edges = s.edges := rfl

theorem openBlock_edges (dl : Option Nat) (s1 : PSt) (l : Line) (nm : Option Chars)
    (fk : FrameKind) (sy : Option Symbol) : (openBlock dl s1 l nm fk sy).edges = s1.edges := by
  unfold openBlock
  split_ifs
  · rfl
  · cases sy <;> rfl

theorem openBlock_ext (dl : Option Nat) (s1 : PSt) (l : Line) (nm : Option Chars)
    (fk : FrameKind) (sy : Option Symbol) :
    ((openBlock dl s1 l nm fk sy).syms = s1.syms ∧
      (openBlock dl s1 l nm fk sy).diags =
        s1.diags ++ [⟨.recursionLimitExceeded, .err, s1.line, s1.line + 1⟩]) ∨
    ((openBlock dl s1 l nm fk sy).syms = s1.syms ++ sy.toList ∧
      (openBlock dl s1 l nm fk sy).diags = s1.diags) := by
  unfold openBlock
  split_ifs
  · left
    exact ⟨rfl, rfl⟩
  · right
    cases sy <;> simp [addSym]

theorem stepNormal_edges (dl : Option Nat) (s : PSt) (l : Line) :
    (stepNormal dl s l).edges = s.edges := by
  unfold stepNormal
  cases h : classify l.content <;> simp only [h] <;>
    first
      | rfl
      | (split_ifs <;>
          simp [openBlock_edges, startRecovery_edges, pushNodeSt_edges, popTo_edges, addSym_edges])

theorem startRecovery_ext (s : PSt) (ri : Nat) :
    ∃ ys ds, (startRecovery s ri).syms = s.syms ++ ys ∧
      (startRecovery s ri).diags = s.diags ++ ds ∧
      (∀ y ∈ ys, y.line = s.line) ∧
      (∀ d ∈ ds, d.spanStart ≤ d.spanEnd ∧ d.spanEnd ≤ s.line + 1) := by
  refine ⟨[], [⟨.synError, .err, s.line, s.line + 1⟩], by simp [startRecovery_syms], rfl, by simp, ?_⟩
  simp

theorem stepNormal_ext (dl : Option Nat) (s : PSt) (l : Line) :
    ∃ ys ds, (stepNormal dl s l).syms = s.syms ++ ys ∧
      (stepNormal dl s l).diags = s.diags ++ ds ∧
      (∀ y ∈ ys, y.line = s.line) ∧
      (∀ d ∈ ds, d.spanStart ≤ d.spanEnd ∧ d.spanEnd ≤ s.line + 1) ∧
      (∀ d ∈ ds, d.kind = .synError ∨ d.kind = .recursionLimitExceeded) := by
  have hsr : ∀ s' : PSt, s'.syms = s.syms → s'.diags = s.diags → s'.line = s.line → ∀ ri,
      ∃ ys ds, (startRecovery s' ri).syms = s.syms ++ ys ∧
        (startRecovery s' ri).diags = s.diags ++ ds ∧
        (∀ y ∈ ys, y.line = s.line) ∧
        (∀ d ∈ ds, d.spanStart ≤ d.spanEnd ∧ d.spanEnd ≤ s.line + 1) ∧
        (∀ d ∈ ds, d.kind = .synError ∨ d.kind = .recursionLimitExceeded) := by
    intro s' h1 h2 h3 ri
    refine ⟨[], [⟨.synError, .err, s'.line, s'.line + 1⟩], ?_, ?_, by simp, ?_, by simp⟩
    · simp [startRecovery_syms, h1]
    · simp [startRecovery_diags, h2]
    · simp [h3]
  have hob : ∀ (s1 : PSt) nm fk (sy : Option Symbol), s1.syms = s.syms → s1.diags = s.diags →
      s1.line = s.line → (∀ y ∈ sy.toList, y.line = s.line) →
      ∃ ys ds, (openBlock dl s1 l nm fk sy).syms = s.syms ++ ys ∧
        (openBlock dl s1 l nm fk sy).diags = s.diags ++ ds ∧
        (∀ y ∈ ys, y.line = s.line) ∧
        (∀ d ∈ ds, d.spanStart ≤ d.spanEnd ∧ d.spanEnd ≤ s.line + 1) ∧
        (∀ d ∈ ds, d.kind = .synError ∨ d.kind = .recursionLimitExceeded) := by
    intro s1 nm fk sy h1 h2 h3 h4
    rcases openBlock_ext dl s1 l nm fk sy with ⟨e1, e2⟩ | ⟨e1, e2⟩
    · refine ⟨[], [⟨.recursionLimitExceeded, .err, s1.line, s1.line + 1⟩], ?_, ?_, by simp, ?_, by simp⟩
      · simp [e1, h1]
      · simp [e2, h2]
      · simp [h3]
    · exact ⟨sy.toList, [], by simp [e1, h1], by simp [e2, h2], h4, by simp, by simp⟩
  unfold stepNormal
  cases h : classify l.content <;> simp only [h]
  case blank => exact ⟨[], [], by simp, by simp, by simp, by simp, by simp⟩
  case comment => exact ⟨[], [], by simp, by simp, by simp, by simp, by simp⟩
  case importL m =>
    split_ifs
    · exact hsr _ (popTo_syms _ _) (popTo_diags _ _) (popTo_line _ _) _
    · exact ⟨[], [], by simp [pushNodeSt_syms, popTo_syms], by simp [pushNodeSt_diags, popTo_diags],
        by simp, by simp, by simp⟩
  case defH n sig =>
    split_ifs
    · exact hsr _ (popTo_syms _ _) (popTo_diags _ _) (popTo_line _ _) _
    · exact hob _ _ _ _ (popTo_syms _ _) (popTo_diags _ _) (popTo_line _ _)
        (by simp [Option.toList, popTo_line])
  case classH n =>
    split_ifs
    · exact hsr _ (popTo_syms _ _) (popTo_diags _ _) (popTo_line _ _) _
    · exact hob _ _ _ _ (popTo_syms _ _) (popTo_diags _ _) (popTo_line _ _)
        (by simp [Option.toList, popTo_line])
  case compoundH =>
    split_ifs
    · exact hsr _ (popTo_syms _ _) (popTo_diags _ _) (popTo_line _ _) _
    · exact hob _ _ _ _ (popTo_syms _ _) (popTo_diags _ _) (popTo_line _ _) (by simp)
  case assignL n =>
    split_ifs
    · exact hsr _ (popTo_syms _ _) (popTo_diags _ _) (popTo_line _ _) _
    · refine ⟨[⟨n, .var, [], (popTo l.indent s).line, 0⟩], [], ?_, ?_, ?_, by simp, by simp⟩
      · simp [pushNodeSt_syms, addSym_syms, popTo_syms]
      · simp [pushNodeSt_diags, addSym_diags, popTo_diags]
      · simp [popTo_line]
    · exact ⟨[], [], by simp [pushNodeSt_syms, popTo_syms], by simp [pushNodeSt_diags, popTo_diags],
        by simp, by simp, by simp⟩
  case plain =>
    split_ifs
    · exact hsr _ (popTo_syms _ _) (popTo_diags _ _) (popTo_line _ _) _
    · exact ⟨[], [], by simp [pushNodeSt_syms, popTo_syms], by simp [pushNodeSt_diags, popTo_diags],
        by simp, by simp, by simp⟩
  case malformed =>
    split_ifs
    · exact hsr _ (popTo_syms _ _) (popTo_diags _ _) (popTo_line _ _) _
    · exact hsr _ (popTo_syms _ _) (popTo_diags _ _) (popTo_line _ _) _

theorem recordEdge_syms (s : PSt) (l : Line) : (recordEdge s l).syms = s.syms := by
  unfold recordEdge
  cases h : classify l.content <;> simp

theorem recordEdge_diags (s : PSt) (l : Line) : (recordEdge s l).diags = s.diags := by
  unfold recordEdge
  cases h : classify l.content <;> simp

theorem recordEdge_line (s : PSt) (l : Line) : (recordEdge s l).line = s.line := by
  unfold recordEdge
  cases h : classify l.content <;> simp

theorem recordEdge_recov (s : PSt) (l : Line) : (recordEdge s l).recov = s.recov := by
  unfold recordEdge
  cases h : classify l.content <;> simp

theorem recordEdge_edges (s : PSt) (l : Line) :
    (recordEdge s l).edges = s.edges ++ importDelta l := by
  unfold recordEdge importDelta
  cases h : classify l.content <;> simp [h]

theorem step_ext (dl : Option Nat) (s : PSt) (l : Line) :
    ∃ ys ds, (step dl s l).syms = s.syms ++ ys ∧
      (step dl s l).diags = s.diags ++ ds ∧
      (∀ y ∈ ys, y.line = s.line) ∧
      (∀ d ∈ ds, d.spanStart ≤ d.spanEnd ∧ d.spanEnd ≤ s.line + 1) ∧
      (step dl s l).edges = s.edges ++ importDelta l ∧
      (∀ d ∈ ds, d.kind = .synError ∨ d.kind = .recursionLimitExceeded) := by
  unfold step
  cases hr : (recordEdge s l).recov with
  | none =>
    obtain ⟨ys, ds, h1, h2, h3, h4, h5⟩ := stepNormal_ext dl (recordEdge s l) l
    refine ⟨ys, ds, ?_, ?_, ?_, ?_, ?_, ?_⟩ <;>
      simp_all [recordEdge_syms, recordEdge_diags, recordEdge_line,
        stepNormal_edges, recordEdge_edges]
  | some p =>
    cases p with
    | mk ri a =>
      by_cases hb : isBoundary ri l = true
      · obtain ⟨ys, ds, h1, h2, h3, h4, h5⟩ :=
          stepNormal_ext dl
            (pushNodeSt { recordEdge s l with recov := none } (.errorN ri a (recordEdge s l).line)) l
        refine ⟨ys, ds, ?_, ?_, ?_, ?_, ?_, ?_⟩ <;>
          simp_all [recordEdge_syms, recordEdge_diags, recordEdge_line,
            pushNodeSt_syms, pushNodeSt_diags, pushNodeSt_line,
            stepNormal_edges, pushNodeSt_edges, recordEdge_edges]
      · refine ⟨[], [], ?_, ?_, by simp, by simp, ?_, by simp⟩ <;>
          simp_all [recordEdge_syms, recordEdge_diags, recordEdge_edges]

theorem foldl_step_line (dl : Option Nat) (ls : List Line) (s : PSt) :
    (ls.foldl (step dl) s).line = s.line + ls.length := by
  induction ls generalizing s with
  | nil => simp
  | cons l ls ih =>
    simp only [List.foldl_cons, ih, step_line, List.length_cons]
    omega

theorem foldl_step_ext (dl : Option Nat) (ls : List Line) (s : PSt) :
    ∃ ys ds, (ls.foldl (step dl) s).syms = s.syms ++ ys ∧
      (ls.foldl (step dl) s).diags = s.diags ++ ds ∧
      (∀ y ∈ ys, s.line ≤ y.line ∧ y.line < s.line + ls.length) ∧
      (∀ d ∈ ds, d.spanStart ≤ d.spanEnd ∧ d.spanEnd ≤ s.line + ls.length) ∧
      (ls.foldl (step dl) s).edges = s.edges ++ importsOf ls ∧
      (∀ d ∈ ds, d.kind = .synError ∨ d.kind = .recursionLimitExceeded) := by
  induction ls generalizing s with
  | nil => exact ⟨[], [], by simp, by simp, by simp, by simp, by simp [importsOf], by simp⟩
  | cons l ls ih =>
    obtain ⟨ys1, ds1, a1, a2, a3, a4, a5, a6⟩ := step_ext dl s l
    obtain ⟨ys2, ds2, b1, b2, b3, b4, b5, b6⟩ := ih (step dl s l)
    refine ⟨ys1 ++ ys2, ds1 ++ ds2, ?_, ?_, ?_, ?_, ?_, ?_⟩
    · simp [List.foldl_cons, b1, a1]
    · simp [List.foldl_cons, b2, a2]
    · intro y hy
      rcases List.mem_append.mp hy with h | h
      · have := a3 y h
        simp only [List.length_cons, this]
        omega
      · have := b3 y h
        rw [step_line] at this
        simp only [List.length_cons]
        omega
    · intro d hd
      rcases List.mem_append.mp hd with h | h
      · have := a4 d h
        constructor
        · exact this.1
        · have : d.spanEnd ≤ s.line + 1 := this.2
          simp only [List.length_cons]
          omega
      · have := b4 d h
        rw [step_line] at this
        constructor
        · exact this.1
        · simp only [List.length_cons]
          omega
    · simp only [List.foldl_cons, b5, a5, importsOf, List.filterMap_cons]
      cases h : classify l.content <;> simp [importDelta, h, importsOf]
    · intro d hd
      rcases List.mem_append.mp hd with h | h
      · exact a6 d h
      · exact b6 d h

theorem closeRecov_syms (s : PSt) : (closeRecov s).syms = s.syms := by
  unfold closeRecov
  cases h : s.recov with
  | none => rfl
  | some p => cases p; simp [pushNodeSt_syms]

theorem closeRecov_diags (s : PSt) : (closeRecov s).diags = s.diags := by
  unfold closeRecov
  cases h : s.recov with
  | none => rfl
  | some p => cases p; simp [pushNodeSt_diags]

theorem closeRecov_edges (s : PSt) : (closeRecov s).edges = s.edges := by
  unfold closeRecov
  cases h : s.recov with
  | none => rfl
  | some p => cases p; simp [pushNodeSt_edges]

theorem closeRecov_line (s : PSt) : (closeRecov s).line = s.line := by
  unfold closeRecov
  cases h : s.recov with
  | none => rfl
  | some p => cases p; simp [pushNodeSt_line]

theorem finalizeSt_syms (s : PSt) : (finalizeSt s).syms = s.syms := by
  simp [finalizeSt, popTo_syms, closeRecov_syms]

theorem finalizeSt_diags (s : PSt) : (finalizeSt s).diags = s.diags := by
  simp [finalizeSt, popTo_diags, closeRecov_diags]

theorem finalizeSt_edges (s : PSt) : (finalizeSt s).edges = s.edges := by
  simp [finalizeSt, popTo_edges, closeRecov_edges]

theorem finalizeSt_line (s : PSt) : (finalizeSt s).line = s.line := by
  simp [finalizeSt, popTo_line, closeRecov_line]

theorem govGo_spec (cfg : Config) (ls : List Line) (s : PSt) :
    ∃ t, t ≤ ls.length ∧ (govGo cfg ls s).1 = (ls.take t).foldl (step cfg.depthLimit) s ∧
      ((govGo cfg ls s).2 = none → (govGo cfg ls s).1 = ls.foldl (step cfg.depthLimit) s) := by
  induction ls generalizing s with
  | nil => exact ⟨0, by simp, by simp [govGo], by simp [govGo]⟩
  | cons l ls ih =>
    by_cases ht : overLimit cfg.timeLimit s.line = true
    · exact ⟨0, by simp, by simp [govGo, ht], by simp [govGo, ht]⟩
    · by_cases hm : overLimit cfg.memLimit (step cfg.depthLimit s l).ents = true
      · refine ⟨1, by simp, ?_, ?_⟩
        · simp [govGo, ht, hm]
        · simp [govGo, ht, hm]
      · obtain ⟨t, h1, h2, h3⟩ := ih (step cfg.depthLimit s l)
        refine ⟨t + 1, by simpa using h1, ?_, ?_⟩
        · simpa [govGo, ht, hm] using h2
        · simpa [govGo, ht, hm] using h3

/-! ## Claim theorems -/

/-- C1: for every input byte sequence (empty input and binary garbage
included) and any configured limits, processing terminates (the pipeline is
a total function into the output record type) and the returned record is
well-formed: every diagnostic span and symbol position lies within the
input's line range and the reported encoding comes from the recognizer
table; no stage can escape with a hard failure. -/
theorem c1_total_wellformed (cfg : Config) (bs : Chars) :
    WellFormedOut bs (processUnit cfg bs) := by
  obtain ⟨t, ht, hgov, -⟩ := govGo_spec cfg (lexLines (normalize bs).1) initSt
  obtain ⟨ys, ds, h1, h2, h3, h4, -, -⟩ :=
    foldl_step_ext cfg.depthLimit ((lexLines (normalize bs).1).take t) initSt
  have hsyms : (govGo cfg (lexLines (normalize bs).1) initSt).1.syms = ys := by
    rw [hgov, h1]; rfl
  have hdiags : (govGo cfg (lexLines (normalize bs).1) initSt).1.diags = ds := by
    rw [hgov, h2]; rfl
  have hline : (govGo cfg (lexLines (normalize bs).1) initSt).1.line ≤ numLines bs := by
    rw [hgov, foldl_step_line]
    have : ((lexLines (normalize bs).1).take t).length ≤ numLines bs := by
      simp [numLines]
    simpa [initSt] using this
  have htake : ((lexLines (normalize bs).1).take t).length ≤ numLines bs := by
    simp [numLines]
  refine ⟨?_, ?_, ?_⟩
  · intro d hd
    simp only [processUnit, finalizeSt_diags, closeRecov_diags, List.mem_append] at hd
    rcases hd with (hd | hd) | hd
    · have : d = encFallbackDiag := by
        by_cases hfb : (normalize bs).2.2 <;> simp [hfb] at hd
        · exact hd
      subst this
      exact ⟨by simp [encFallbackDiag], by simp [encFallbackDiag]⟩
    · rw [hdiags] at hd
      have := h4 d hd
      simp only [initSt] at this
      exact ⟨this.1, by omega⟩
    · rcases hab : (govGo cfg (lexLines (normalize bs).1) initSt).2 with _ | k
      · simp [hab] at hd
      · simp only [hab] at hd
        simp only [List.mem_singleton] at hd
        subst hd
        exact ⟨le_refl _, hline⟩
  · intro y hy
    simp only [processUnit, finalizeSt_syms] at hy
    rw [hsyms] at hy
    have := h3 y hy
    simp only [initSt] at this
    have hlt : y.line < ((lexLines (normalize bs).1).take t).length := by omega
    exact lt_of_lt_of_le hlt htake
  · simp only [processUnit, normalize]
    split_ifs
    · exact Or.inl rfl
    · cases (declaredEnc bs).getD .utf8 <;> simp [encName]

/-- C3: processing the exact text `def f()\n    return 1\n\ndef g():\n
    return 2\n` (missing colon on `f`) yields exactly one SyntaxError
diagnostic, a symbols list equal to the single function symbol `g` (with
its verbatim signature, at line 3, at top level) and `truncated = false`. -/
theorem c3_missing_colon_scenario :
    (processUnit cfgFree (strCodes "def f()\n    return 1\n\ndef g():\n    return 2\n")).diags =
        [⟨.synError, .err, 0, 1⟩] ∧
      (processUnit cfgFree (strCodes "def f()\n    return 1\n\ndef g():\n    return 2\n")).syms =
        [⟨[103], .func, strCodes "()", 3, 0⟩] ∧
      (processUnit cfgFree (strCodes "def f()\n    return 1\n\ndef g():\n    return 2\n")).truncated
        = false := by
  refine ⟨?_, ?_, ?_⟩ <;> decide

/-- C7: the engine is a pure function of the input bytes and the configured
limits: whenever the same byte sequence appears in any two batches at any
positions, under the same limits, the two per-unit outputs carry identical
symbols and identical diagnostics. -/
theorem c7_pure_function (cfg : Config) (us vs : List (Chars × Chars)) (i j : Nat)
    (n1 n2 : Chars) (bs : Chars)
    (hi : us[i]? = some (n1, bs)) (hj : vs[j]? = some (n2, bs)) :
    ∃ o1 o2, (processBatch cfg us).units[i]? = some (n1, o1) ∧
      (processBatch cfg vs).units[j]? = some (n2, o2) ∧
      o1.syms = o2.syms ∧ o1.diags = o2.diags := by
  refine ⟨processUnit cfg bs, processUnit cfg bs, ?_, ?_, rfl, rfl⟩
  · simp [processBatch, List.getElem?_map, hi]
  · simp [processBatch, List.getElem?_map, hj]

/-- C7 witness: the same bytes at different positions of two different
batches yield the same symbols and diagnostics. -/
theorem c7_pure_function_witness :
    ∃ o1 o2,
      (processBatch cfgFree [([65], strCodes "def a():\n    pass\n")]).units[0]? = some ([65], o1) ∧
      (processBatch cfgFree [([66], strCodes "x = 1\n"), ([67], strCodes "def a():\n    pass\n")]).units[1]?
        = some ([67], o2) ∧
      o1.syms = o2.syms ∧ o1.diags = o2.diags :=
  c7_pure_function cfgFree _ _ 0 1 [65] [67] (strCodes "def a():\n    pass\n")
    (by decide) (by decide)

/-- C10: every import statement anywhere in the file - nested inside
try/except blocks, inside function or method bodies, or under a conditional
- is recorded as an import edge of the unit: the recorded edge list is
exactly the list of all import statements of the file in order, and in
particular every import line's target is recorded. -/
theorem c10_all_imports_recorded (lines : List Line) :
    (processLines lines).edges = importsOf lines ∧
      ∀ l ∈ lines, ∀ m, classify l.content = .importL m →
        m ∈ (processLines lines).edges := by
  obtain ⟨ys, ds, -, -, -, -, h5, -⟩ := foldl_step_ext none lines initSt
  have hedges : (processLines lines).edges = importsOf lines := by
    simp only [processLines, runLines, finalizeSt_edges, closeRecov_edges] at *
    rw [h5]
    rfl
  refine ⟨hedges, ?_⟩
  intro l hl m hm
  rw [hedges]
  unfold importsOf
  exact List.mem_filterMap.mpr ⟨l, hl, by simp [hm]⟩

/-- C10 witness: a file whose only imports sit inside a try block, a
function body and a conditional records all three. -/
theorem c10_all_imports_recorded_witness :
    (strCodes "inner") ∈ (processLines (lexLines (strCodes
      "try:\n    import helper\nexcept ImportError:\n    pass\ndef setup():\n    import inner\nif TYPE_CHECKING:\n    from mod import X\n"))).edges :=
  (c10_all_imports_recorded _).2 ⟨4, strCodes "import inner"⟩ (by decide) (strCodes "inner")
    (by decide)

/-- The governor can only report a timeout or a memory overrun. -/
theorem govGo_abort_kinds (cfg : Config) (ls : List Line) (s : PSt) :
    (govGo cfg ls s).2 = none ∨ (govGo cfg ls s).2 = some .timeoutExceeded ∨
      (govGo cfg ls s).2 = some .memoryLimitExceeded := by
  induction ls generalizing s with
  | nil => simp [govGo]
  | cons l ls ih =>
    by_cases ht : overLimit cfg.timeLimit s.line = true
    · simp [govGo, ht]
    · by_cases hm : overLimit cfg.memLimit (step cfg.depthLimit s l).ents = true
      · simp [govGo, ht, hm]
      · simpa [govGo, ht, hm] using ih (step cfg.depthLimit s l)

/-- Without enforced limits the governor never aborts. -/
theorem govGo_free_none (ls : List Line) (s : PSt) : (govGo cfgFree ls s).2 = none := by
  induction ls generalizing s with
  | nil => simp [govGo]
  | cons l ls ih => simpa [govGo, cfgFree, overLimit] using ih (step none s l)

/-- C5: whenever the wall-clock or memory ceiling is exceeded while a file
is processed (the output is truncated), the engine aborts that file only:
its symbols are a prefix of the full (ungoverned) run's symbols, all its
diagnostics except the final one are a prefix of the full run's diagnostics,
the appended final diagnostic is the fatal TimeoutExceeded or
MemoryLimitExceeded entry, and every unit of any batch is still processed
independently, so the other files are unaffected. -/
theorem c5_limit_aborts_file_only (cfg : Config) (bs : Chars)
    (htr : (processUnit cfg bs).truncated = true) :
    (processUnit cfg bs).syms <+: (processUnitFull cfg.depthLimit bs).syms ∧
      (processUnit cfg bs).diags.dropLast <+: (processUnitFull cfg.depthLimit bs).diags ∧
      ((processUnit cfg bs).diags.getLast?.map (fun d => d.kind) = some .timeoutExceeded ∨
        (processUnit cfg bs).diags.getLast?.map (fun d => d.kind) = some .memoryLimitExceeded) ∧
      (∀ (us : List (Chars × Chars)) (k : Nat),
        (processBatch cfg us).units[k]? = (us[k]?).map (fun u => (u.1, processUnit cfg u.2))) := by
  have htr' : (govGo cfg (lexLines (normalize bs).1) initSt).2.isSome = true := by
    simpa [processUnit] using htr
  obtain ⟨k, hk⟩ := Option.isSome_iff_exists.mp htr'
  have hkind : k = .timeoutExceeded ∨ k = .memoryLimitExceeded := by
    rcases govGo_abort_kinds cfg (lexLines (normalize bs).1) initSt with h | h | h
    · simp [hk] at h
    · rw [hk] at h
      exact Or.inl (Option.some.inj h)
    · rw [hk] at h
      exact Or.inr (Option.some.inj h)
  obtain ⟨t, ht, hgov, -⟩ := govGo_spec cfg (lexLines (normalize bs).1) initSt
  obtain ⟨ys2, ds2, b1, b2, -, -, -, -⟩ :=
    foldl_step_ext cfg.depthLimit ((lexLines (normalize bs).1).drop t)
      (((lexLines (normalize bs).1).take t).foldl (step cfg.depthLimit) initSt)
  have hfold : (lexLines (normalize bs).1).foldl (step cfg.depthLimit) initSt
      = ((lexLines (normalize bs).1).drop t).foldl (step cfg.depthLimit)
          (((lexLines (normalize bs).1).take t).foldl (step cfg.depthLimit) initSt) := by
    rw [← List.foldl_append, List.take_append_drop]
  have hsym : (processUnit cfg bs).syms
      = (govGo cfg (lexLines (normalize bs).1) initSt).1.syms := by
    simp [processUnit, finalizeSt_syms]
  have hsymF : (processUnitFull cfg.depthLimit bs).syms
      = ((lexLines (normalize bs).1).foldl (step cfg.depthLimit) initSt).syms := by
    simp [processUnitFull, runLines, finalizeSt_syms]
  have hdg : (processUnit cfg bs).diags =
      ((if (normalize bs).2.2 then [encFallbackDiag] else []) ++
        (govGo cfg (lexLines (normalize bs).1) initSt).1.diags) ++
        [fatalDiag k (govGo cfg (lexLines (normalize bs).1) initSt).1.line] := by
    simp [processUnit, finalizeSt_diags, hk]
  have hdgF : (processUnitFull cfg.depthLimit bs).diags =
      (if (normalize bs).2.2 then [encFallbackDiag] else []) ++
        ((lexLines (normalize bs).1).foldl (step cfg.depthLimit) initSt).diags := by
    simp [processUnitFull, runLines, finalizeSt_diags]
  refine ⟨?_, ?_, ?_, ?_⟩
  · rw [hsym, hsymF, hgov, hfold, b1]
    exact ⟨ys2, rfl⟩
  · rw [hdg, hdgF, List.dropLast_concat, hgov, hfold, b2]
    exact ⟨ds2, by rw [List.append_assoc]⟩
  · rw [hdg, List.getLast?_concat]
    rcases hkind with h | h <;> [left; right] <;> simp [h, fatalDiag]
  · intro us j
    simp [processBatch, List.getElem?_map]

/-- C5 witness: a two-function file under a one-line time budget truncates
with the first symbol kept and a TimeoutExceeded appended, and batch
processing maps units independently. -/
theorem c5_limit_aborts_file_only_witness :
    (processUnit ⟨some 1, none, none⟩ (strCodes "def a():\n    return 1\ndef b():\n    return 2\n")).syms
        <+: (processUnitFull none (strCodes "def a():\n    return 1\ndef b():\n    return 2\n")).syms ∧
      (processUnit ⟨some 1, none, none⟩ (strCodes "def a():\n    return 1\ndef b():\n    return 2\n")).diags.dropLast
        <+: (processUnitFull none (strCodes "def a():\n    return 1\ndef b():\n    return 2\n")).diags ∧
      ((processUnit ⟨some 1, none, none⟩ (strCodes "def a():\n    return 1\ndef b():\n    return 2\n")).diags.getLast?.map (fun d => d.kind) = some .timeoutExceeded ∨
        (processUnit ⟨some 1, none, none⟩ (strCodes "def a():\n    return 1\ndef b():\n    return 2\n")).diags.getLast?.map (fun d => d.kind) = some .memoryLimitExceeded) ∧
      (∀ (us : List (Chars × Chars)) (k : Nat),
        (processBatch ⟨some 1, none, none⟩ us).units[k]?
          = (us[k]?).map (fun u => (u.1, processUnit ⟨some 1, none, none⟩ u.2))) :=
  c5_limit_aborts_file_only ⟨some 1, none, none⟩
    (strCodes "def a():\n    return 1\ndef b():\n    return 2\n") (by decide)

/-- C9: whenever the declared or inferred encoding cannot decode some byte
sequence (the replacement fallback fired), the pipeline still runs to
completion: exactly one EncodingFallback diagnostic is emitted, the symbols
are exactly those extracted from the replacement-decoded text, and the
decode failure does not truncate the output. -/
theorem c9_encoding_fallback (bs : Chars) (hfb : (normalize bs).2.2 = true) :
    countKind .encodingFallback (processUnit cfgFree bs).diags = 1 ∧
      (processUnit cfgFree bs).syms = (processLines (lexLines (normalize bs).1)).syms ∧
      (processUnit cfgFree bs).truncated = false := by
  have hnone := govGo_free_none (lexLines (normalize bs).1) initSt
  obtain ⟨t, -, -, hall⟩ := govGo_spec cfgFree (lexLines (normalize bs).1) initSt
  have hfoldeq : (govGo cfgFree (lexLines (normalize bs).1) initSt).1
      = (lexLines (normalize bs).1).foldl (step none) initSt := by
    have := hall hnone
    simpa [cfgFree] using this
  obtain ⟨ys, ds, -, h2, -, -, -, h6⟩ :=
    foldl_step_ext none (lexLines (normalize bs).1) initSt
  refine ⟨?_, ?_, ?_⟩
  · have hdg : (processUnit cfgFree bs).diags =
        [encFallbackDiag] ++ (govGo cfgFree (lexLines (normalize bs).1) initSt).1.diags := by
      simp [processUnit, finalizeSt_diags, hnone, hfb]
    rw [hdg, hfoldeq, h2]
    have hds : ∀ d ∈ ds, d.kind ≠ DiagKind.encodingFallback := by
      intro d hd
      rcases h6 d hd with h | h <;> simp [h]
    simp only [countKind, List.filter_append]
    have : ds.filter (fun d => d.kind = DiagKind.encodingFallback) = [] := by
      apply List.filter_eq_nil_iff.mpr
      intro d hd
      simpa using hds d hd
    simp [this, encFallbackDiag, initSt]
  · have : (processUnit cfgFree bs).syms
        = (govGo cfgFree (lexLines (normalize bs).1) initSt).1.syms := by
      simp [processUnit, finalizeSt_syms]
    rw [this, hfoldeq]
    simp [processLines, runLines, finalizeSt_syms]
  · simp [processUnit, hnone]

/-- C9 witness: a UTF-8 file with one undecodable byte inside a comment
yields exactly one EncodingFallback diagnostic, untruncated output and the
same symbols as the replacement-decoded text (in particular `g` is still
extracted, as evaluating the right-hand side confirms). -/
theorem c9_encoding_fallback_witness :
    countKind .encodingFallback
        (processUnit cfgFree ([35, 32, 255, 10] ++ strCodes "def g():\n    return 2\n")).diags = 1 ∧
      (processUnit cfgFree ([35, 32, 255, 10] ++ strCodes "def g():\n    return 2\n")).syms =
        (processLines (lexLines
          (normalize ([35, 32, 255, 10] ++ strCodes "def g():\n    return 2\n")).1)).syms ∧
      (processUnit cfgFree ([35, 32, 255, 10] ++ strCodes "def g():\n    return 2\n")).truncated
        = false :=
  c9_encoding_fallback ([35, 32, 255, 10] ++ strCodes "def g():\n    return 2\n") (by decide)

/-! ## The structural tree invariant (C8) -/


theorem errSpans_closeFrame (f : Frame) : errSpans (closeFrame f) = errSpansL f.children := by
  cases hk : f.kind <;> simp [closeFrame, hk, errSpans]

theorem errSpansL_append (xs ys : List Node) :
    errSpansL (xs ++ ys) = errSpansL xs ++ errSpansL ys := by
  induction xs with
  | nil => simp [errSpansL]
  | cons n ns ih => simp [errSpansL, ih]

theorem errSpansL_singleton (n : Node) : errSpansL [n] = errSpans n := by
  simp [errSpansL]

theorem mem_stateErr_pushNodeSt (s : PSt) (n : Node) (e : Nat × Nat × Nat)
    (h : e ∈ stateErr (pushNodeSt s n)) : e ∈ stateErr s ∨ e ∈ errSpans n := by
  cases hs : s.stack <;>
    simp only [stateErr, pushNodeSt, hs, List.map_cons, List.flatten_cons, errSpansL_append,
      errSpansL_singleton, List.mem_append] at h ⊢ <;>
    tauto

theorem mem_stateErr_popAttach (i : Nat) (st : List Frame) (n : Node) (top : List Node)
    (ents : Nat) (e : Nat × Nat × Nat)
    (h : e ∈ errSpansL (popAttach i st n top ents).2.1 ++
      ((popAttach i st n top ents).1.map (fun f => errSpansL f.children)).flatten) :
    e ∈ errSpansL top ++ errSpans n ++ (st.map (fun f => errSpansL f.children)).flatten := by
  induction st generalizing n top ents with
  | nil =>
    simp only [popAttach, List.map_nil, List.flatten_nil, List.append_nil, errSpansL_append,
      errSpansL_singleton, List.mem_append] at h ⊢
    tauto
  | cons g gs ih =>
    simp only [popAttach] at h
    split_ifs at h
    · have hmem := ih (closeFrame { g with children := g.children ++ [n] }) top (ents + 1) h
      rw [errSpans_closeFrame] at hmem
      simp only [errSpansL_append, errSpansL_singleton, List.map_cons, List.flatten_cons,
        List.mem_append] at hmem ⊢
      tauto
    · simp only [List.map_cons, List.flatten_cons, errSpansL_append, errSpansL_singleton,
        List.mem_append] at h ⊢
      tauto

theorem mem_stateErr_popTo (i : Nat) (s : PSt) (e : Nat × Nat × Nat)
    (h : e ∈ stateErr (popTo i s)) : e ∈ stateErr s := by
  simp only [stateErr, popTo, popToAux] at h
  cases hs : s.stack with
  | nil =>
    simp only [hs] at h
    simpa [stateErr, hs] using h
  | cons f fs =>
    simp only [hs] at h
    split_ifs at h
    · have hmem := mem_stateErr_popAttach i fs (closeFrame f) s.top (s.ents + 1) e h
      rw [errSpans_closeFrame] at hmem
      simp only [stateErr, hs, List.map_cons, List.flatten_cons, List.mem_append] at hmem ⊢
      tauto
    · simpa [stateErr, hs] using h

theorem stateErr_startRecovery (s : PSt) (ri : Nat) :
    stateErr (startRecovery s ri) = stateErr s := rfl

theorem stateErr_recordEdge (s : PSt) (l : Line) :
    stateErr (recordEdge s l) = stateErr s := by
  unfold recordEdge
  cases h : classify l.content <;> rfl

theorem mem_stateErr_openBlock (dl : Option Nat) (s1 : PSt) (l : Line) (nm : Option Chars)
    (fk : FrameKind) (sy : Option Symbol) (e : Nat × Nat × Nat)
    (h : e ∈ stateErr (openBlock dl s1 l nm fk sy)) : e ∈ stateErr s1 := by
  unfold openBlock at h
  split_ifs at h
  · exact h
  · cases sy <;>
      simpa [stateErr, addSym, errSpansL, List.map_cons, List.flatten_cons] using h

theorem mem_stateErr_stepNormal (dl : Option Nat) (s : PSt) (l : Line) (e : Nat × Nat × Nat)
    (h : e ∈ stateErr (stepNormal dl s l)) : e ∈ stateErr s := by
  unfold stepNormal at h
  have hpop : ∀ e, e ∈ stateErr (popTo l.indent s) → e ∈ stateErr s :=
    fun e h => mem_stateErr_popTo _ _ _ h
  cases hc : classify l.content <;> simp only [hc] at h
  case blank => exact h
  case comment => exact h
  case importL m =>
    split_ifs at h
    · exact hpop e (by simpa [stateErr_startRecovery] using h)
    · rcases mem_stateErr_pushNodeSt _ _ _ h with h1 | h1
      · exact hpop e h1
      · simp [errSpans] at h1
  case defH n sig =>
    split_ifs at h
    · exact hpop e (by simpa [stateErr_startRecovery] using h)
    · exact hpop e (mem_stateErr_openBlock _ _ _ _ _ _ _ h)
  case classH n =>
    split_ifs at h
    · exact hpop e (by simpa [stateErr_startRecovery] using h)
    · exact hpop e (mem_stateErr_openBlock _ _ _ _ _ _ _ h)
  case compoundH =>
    split_ifs at h
    · exact hpop e (by simpa [stateErr_startRecovery] using h)
    · exact hpop e (mem_stateErr_openBlock _ _ _ _ _ _ _ h)
  case assignL n =>
    split_ifs at h
    · exact hpop e (by simpa [stateErr_startRecovery] using h)
    · rcases mem_stateErr_pushNodeSt _ _ _ h with h1 | h1
      · exact hpop e (by simpa [stateErr, addSym] using h1)
      · simp [errSpans] at h1
    · rcases mem_stateErr_pushNodeSt _ _ _ h with h1 | h1
      · exact hpop e h1
      · simp [errSpans] at h1
  case plain =>
    split_ifs at h
    · exact hpop e (by simpa [stateErr_startRecovery] using h)
    · rcases mem_stateErr_pushNodeSt _ _ _ h with h1 | h1
      · exact hpop e h1
      · simp [errSpans] at h1
  case malformed =>
    split_ifs at h <;> exact hpop e (by simpa [stateErr_startRecovery] using h)

theorem mem_stateErr_step (dl : Option Nat) (s : PSt) (l : Line) (e : Nat × Nat × Nat)
    (h : e ∈ stateErr (step dl s l)) :
    e ∈ stateErr s ∨
      ∃ ri a, s.recov = some (ri, a) ∧ isBoundary ri l = true ∧ e = (ri, a, s.line) := by
  unfold step at h
  have hre := stateErr_recordEdge s l
  cases hr : (recordEdge s l).recov with
  | none =>
    simp only [hr] at h
    have : e ∈ stateErr (stepNormal dl (recordEdge s l) l) := by
      simpa [stateErr] using h
    exact Or.inl (by rw [← hre]; exact mem_stateErr_stepNormal _ _ _ _ this)
  | some p =>
    cases p with
    | mk ri a =>
      by_cases hb : isBoundary ri l = true
      · simp only [hr, hb, if_true] at h
        have h' : e ∈ stateErr (stepNormal dl
            (pushNodeSt { recordEdge s l with recov := none } (.errorN ri a (recordEdge s l).line)) l) := by
          simpa [stateErr] using h
        have h2 := mem_stateErr_stepNormal _ _ _ _ h'
        rcases mem_stateErr_pushNodeSt _ _ _ (by simpa [stateErr] using h2) with h3 | h3
        · exact Or.inl (by rw [← hre]; simpa [stateErr] using h3)
        · right
          refine ⟨ri, a, ?_, hb, ?_⟩
          · rw [← recordEdge_recov s l, hr]
          · simp [errSpans] at h3
            rw [recordEdge_line] at h3
            simpa using h3
      · simp only [hr, hb, if_false] at h
        exact Or.inl (by rw [← hre]; simpa [stateErr] using h)


theorem drop_cons_getD (L : List Line) (k : Nat) (l : Line) (rest : List Line)
    (h : L.drop k = l :: rest) : L.getD k ⟨0, []⟩ = l ∧ k < L.length := by
  induction L generalizing k with
  | nil => simp at h
  | cons x xs ih =>
    cases k with
    | zero =>
      simp at h
      simp [h.1]
    | succ k =>
      simp only [List.drop_succ_cons] at h
      have := ih k h
      exact ⟨by simpa using this.1, by simpa using this.2⟩

theorem stateErr_fold_inv (dl : Option Nat) (L : List Line) :
    ∀ (suffix : List Line) (s : PSt), s.line + suffix.length = L.length →
      L.drop s.line = suffix →
      (∀ e ∈ stateErr s, ErrStrict L e) →
      ∀ e ∈ stateErr (suffix.foldl (step dl) s), ErrStrict L e := by
  intro suffix
  induction suffix with
  | nil => intro s _ _ hinv; simpa using hinv
  | cons l rest ih =>
    intro s hlen hdrop hinv
    obtain ⟨hget, hlt⟩ := drop_cons_getD L s.line l rest hdrop
    have hdrop' : L.drop (step dl s l).line = rest := by
      rw [step_line]
      have : L.drop (s.line + 1) = (L.drop s.line).drop 1 := by
        rw [List.drop_drop]
      rw [this, hdrop]
      simp
    have hlen' : (step dl s l).line + rest.length = L.length := by
      rw [step_line]
      simp only [List.length_cons] at hlen
      omega
    have hinv' : ∀ e ∈ stateErr (step dl s l), ErrStrict L e := by
      intro e he
      rcases mem_stateErr_step dl s l e he with h | ⟨ri, a, -, hb, heq⟩
      · exact hinv e h
      · subst heq
        exact ⟨hlt, by rwa [hget]⟩
    simpa using ih (step dl s l) hlen' hdrop' hinv'

/-- C8: for every input, the tree the parser produces satisfies the
structural invariant: every ErrorNode closes at end of input or at a
resynchronization boundary for the indentation at which its recovery began
(no unresolved open block survives into the tree), and node ownership is a
strict tree: every child of any node is structurally smaller than its
parent, so the child relation is well-founded and acyclic. -/
theorem c8_tree_invariant (lines : List Line) :
    (errSpansL (parseTree lines)).Forall (ErrOk lines) ∧
      ∀ n : Node, (nodeChildren n).Forall (fun c => sizeOf c < sizeOf n) := by
  constructor
  · have hfold := stateErr_fold_inv none lines lines initSt (by simp [initSt]) (by simp [initSt])
      (by intro e he; simp [stateErr, initSt, errSpansL] at he)
    have hline : (lines.foldl (step none) initSt).line = lines.length := by
      simp [foldl_step_line, initSt]
    have hfin : ∀ e ∈ stateErr (finalizeSt (lines.foldl (step none) initSt)), ErrOk lines e := by
      intro e he
      unfold finalizeSt at he
      have he2 := mem_stateErr_popTo _ _ _ he
      unfold closeRecov at he2
      cases hr : (lines.foldl (step none) initSt).recov with
      | none =>
        simp only [hr] at he2
        exact Or.inr (hfold e he2)
      | some p =>
        cases p with
        | mk ri a =>
          simp only [hr] at he2
          rcases mem_stateErr_pushNodeSt _ _ _ (by simpa [stateErr] using he2) with h3 | h3
          · exact Or.inr (hfold e (by simpa [stateErr] using h3))
          · simp [errSpans] at h3
            subst h3
            exact Or.inl (by simpa using hline)
    rw [List.forall_iff_forall_mem]
    intro e he
    apply hfin
    unfold stateErr
    exact List.mem_append.mpr (Or.inl he)
  · intro n
    rw [List.forall_iff_forall_mem]
    intro c hc
    cases n with
    | stmtN a => simp [nodeChildren] at hc
    | importN a b => simp [nodeChildren] at hc
    | assignN a b => simp [nodeChildren] at hc
    | errorN x y z => simp [nodeChildren] at hc
    | funcN a b d cs =>
      have := List.sizeOf_lt_of_mem (by simpa [nodeChildren] using hc : c ∈ cs)
      simp only [Node.funcN.sizeOf_spec]
      omega
    | classN a b cs =>
      have := List.sizeOf_lt_of_mem (by simpa [nodeChildren] using hc : c ∈ cs)
      simp only [Node.classN.sizeOf_spec]
      omega
    | compN a cs =>
      have := List.sizeOf_lt_of_mem (by simpa [nodeChildren] using hc : c ∈ cs)
      simp only [Node.compN.sizeOf_spec]
      omega

/-! ## Complete extraction on syntax-error-free inputs (C4) -/

theorem countKind_append (k : DiagKind) (a b : List Diagnostic) :
    countKind k (a ++ b) = countKind k a + countKind k b := by
  simp [countKind, List.filter_append]

theorem topNamesOf_append (a b : List Symbol) :
    topNamesOf (a ++ b) = topNamesOf a ++ topNamesOf b := by
  simp [topNamesOf, List.filter_append]

theorem popAttach_zero_stack (st : List Frame) (n : Node) (top : List Node) (ents : Nat) :
    (popAttach 0 st n top ents).1 = [] := by
  induction st generalizing n top ents with
  | nil => simp [popAttach]
  | cons g gs ih => simp [popAttach, ih]

theorem popTo_zero_stack (s : PSt) : (popTo 0 s).stack = [] := by
  simp only [popTo, popToAux]
  cases hs : s.stack with
  | nil => rfl
  | cons f fs => simp [popAttach_zero_stack]

theorem popTo_recov' (i : Nat) (s : PSt) : (popTo i s).recov = s.recov := rfl

/-- One normal-mode transition either reports exactly one new SyntaxError
(a grammar violation or an orphan indentation), or reports nothing, stays
out of recovery, and extends the top-level symbol names by exactly the
declaration the line carries at indentation zero. -/
theorem step_none_cases (s : PSt) (l : Line) (hr : s.recov = none) :
    countKind .synError (step none s l).diags = countKind .synError s.diags + 1 ∨
    ((step none s l).diags = s.diags ∧
      (step none s l).recov = none ∧
      topNamesOf (step none s l).syms =
        topNamesOf s.syms ++
          (if l.indent = 0 && isDeclLine l then [declNameOf l] else [])) := by
  have hsy : (recordEdge s l).syms = s.syms := recordEdge_syms s l
  have hdg : (recordEdge s l).diags = s.diags := recordEdge_diags s l
  have hstep : step none s l =
      { stepNormal none (recordEdge s l) l with
          line := (stepNormal none (recordEdge s l) l).line + 1 } := by
    simp only [step, recordEdge_recov, hr]
  set s0 := recordEdge s l with hs0
  have hr0 : s0.recov = none := by rw [hs0, recordEdge_recov, hr]
  have hSE : ∀ s' : PSt, s'.diags = s.diags →
      countKind .synError (startRecovery s' l.indent).diags =
        countKind .synError s.diags + 1 := by
    intro s' h
    rw [startRecovery_diags, h, countKind_append]
    simp [countKind]
  unfold stepNormal at hstep
  cases hc : classify l.content <;> simp only [hc] at hstep
  case blank =>
    refine Or.inr ⟨?_, ?_, ?_⟩ <;> simp [hstep, hdg, hr0, hsy, isDeclLine, hc]
  case comment =>
    refine Or.inr ⟨?_, ?_, ?_⟩ <;> simp [hstep, hdg, hr0, hsy, isDeclLine, hc]
  case importL m =>
    by_cases ho : ((popTo l.indent s0).stack.isEmpty && l.indent != 0) = true
    · rw [if_pos ho] at hstep
      exact Or.inl (by simp only [hstep]; exact hSE _ (by rw [popTo_diags, hdg]))
    · rw [if_neg ho] at hstep
      refine Or.inr ⟨?_, ?_, ?_⟩ <;>
        simp [hstep, pushNodeSt_diags, pushNodeSt_recov, pushNodeSt_syms,
          popTo_diags, popTo_recov', popTo_syms, hdg, hr0, hsy, isDeclLine, hc]
  case compoundH =>
    by_cases ho : ((popTo l.indent s0).stack.isEmpty && l.indent != 0) = true
    · rw [if_pos ho] at hstep
      exact Or.inl (by simp only [hstep]; exact hSE _ (by rw [popTo_diags, hdg]))
    · rw [if_neg ho] at hstep
      refine Or.inr ⟨?_, ?_, ?_⟩ <;>
        simp [hstep, openBlock, overDepth, addSym, popTo_diags, popTo_recov', popTo_syms,
          hdg, hr0, hsy, isDeclLine, hc]
  case plain =>
    by_cases ho : ((popTo l.indent s0).stack.isEmpty && l.indent != 0) = true
    · rw [if_pos ho] at hstep
      exact Or.inl (by simp only [hstep]; exact hSE _ (by rw [popTo_diags, hdg]))
    · rw [if_neg ho] at hstep
      refine Or.inr ⟨?_, ?_, ?_⟩ <;>
        simp [hstep, pushNodeSt_diags, pushNodeSt_recov, pushNodeSt_syms,
          popTo_diags, popTo_recov', popTo_syms, hdg, hr0, hsy, isDeclLine, hc]
  case malformed =>
    by_cases ho : ((popTo l.indent s0).stack.isEmpty && l.indent != 0) = true
    · rw [if_pos ho] at hstep
      exact Or.inl (by simp only [hstep]; exact hSE _ (by rw [popTo_diags, hdg]))
    · rw [if_neg ho] at hstep
      exact Or.inl (by simp only [hstep]; exact hSE _ (by rw [popTo_diags, hdg]))
  case defH n sig =>
    by_cases ho : ((popTo l.indent s0).stack.isEmpty && l.indent != 0) = true
    · rw [if_pos ho] at hstep
      exact Or.inl (by simp only [hstep]; exact hSE _ (by rw [popTo_diags, hdg]))
    · rw [if_neg ho] at hstep
      refine Or.inr ⟨?_, ?_, ?_⟩
      · simp [hstep, openBlock, overDepth, addSym, popTo_diags, hdg]
      · simp [hstep, openBlock, overDepth, addSym, popTo_recov', hr0]
      · by_cases hi : l.indent = 0
        · simp [hstep, openBlock, overDepth, addSym, topNamesOf_append, popTo_syms, hsy,
            popTo_zero_stack, topNamesOf, dottedName, isDeclLine, declNameOf, hc, hi]
        · have hne : (popTo l.indent s0).stack ≠ [] := by
            intro hemp
            rw [List.isEmpty_iff.mpr hemp] at ho
            simp [hi] at ho
          have hd : (popTo l.indent s0).stack.length ≠ 0 := by
            simpa [List.length_eq_zero] using hne
          simp [hstep, openBlock, overDepth, addSym, topNamesOf_append, popTo_syms, hsy,
            topNamesOf, hi, hd]
  case classH n =>
    by_cases ho : ((popTo l.indent s0).stack.isEmpty && l.indent != 0) = true
    · rw [if_pos ho] at hstep
      exact Or.inl (by simp only [hstep]; exact hSE _ (by rw [popTo_diags, hdg]))
    · rw [if_neg ho] at hstep
      refine Or.inr ⟨?_, ?_, ?_⟩
      · simp [hstep, openBlock, overDepth, addSym, popTo_diags, hdg]
      · simp [hstep, openBlock, overDepth, addSym, popTo_recov', hr0]
      · by_cases hi : l.indent = 0
        · simp [hstep, openBlock, overDepth, addSym, topNamesOf_append, popTo_syms, hsy,
            popTo_zero_stack, topNamesOf, dottedName, isDeclLine, declNameOf, hc, hi]
        · have hne : (popTo l.indent s0).stack ≠ [] := by
            intro hemp
            rw [List.isEmpty_iff.mpr hemp] at ho
            simp [hi] at ho
          have hd : (popTo l.indent s0).stack.length ≠ 0 := by
            simpa [List.length_eq_zero] using hne
          simp [hstep, openBlock, overDepth, addSym, topNamesOf_append, popTo_syms, hsy,
            topNamesOf, hi, hd]
  case assignL n =>
    by_cases ho : ((popTo l.indent s0).stack.isEmpty && l.indent != 0) = true
    · rw [if_pos ho] at hstep
      exact Or.inl (by simp only [hstep]; exact hSE _ (by rw [popTo_diags, hdg]))
    · rw [if_neg ho] at hstep
      by_cases he : (popTo l.indent s0).stack.isEmpty = true
      · have hi : l.indent = 0 := by
          by_contra hi
          rw [he] at ho
          simp [hi] at ho
        rw [if_pos he] at hstep
        refine Or.inr ⟨?_, ?_, ?_⟩
        · simp [hstep, pushNodeSt_diags, addSym, popTo_diags, hdg]
        · simp [hstep, pushNodeSt_recov, addSym, popTo_recov', hr0]
        · simp [hstep, pushNodeSt_syms, addSym, topNamesOf_append, popTo_syms, hsy,
            topNamesOf, isDeclLine, declNameOf, hc, hi]
      · have hi : l.indent ≠ 0 := by
          intro hi
          rw [hi] at he
          exact he (List.isEmpty_iff.mpr (popTo_zero_stack s0))
        rw [if_neg he] at hstep
        refine Or.inr ⟨?_, ?_, ?_⟩
        · simp [hstep, pushNodeSt_diags, popTo_diags, hdg]
        · simp [hstep, pushNodeSt_recov, popTo_recov', hr0]
        · simp [hstep, pushNodeSt_syms, popTo_syms, hsy, hi]

/-- A run that never reports a SyntaxError emits, at top level, exactly the
names of the indentation-zero declaration lines, in order. -/
theorem c4_main (ls : List Line) : ∀ s : PSt, s.recov = none →
    countKind .synError ((ls.foldl (step none) s).diags) = countKind .synError s.diags →
    topNamesOf ((ls.foldl (step none) s).syms) = topNamesOf s.syms ++ topDeclNames ls := by
  induction ls with
  | nil =>
    intro s _ _
    simp [topDeclNames]
  | cons l rest ih =>
    intro s hr hcount
    obtain ⟨ys2, ds2, b1, b2, -, -, -, -⟩ := foldl_step_ext none rest (step none s l)
    have hfold : (l :: rest).foldl (step none) s = rest.foldl (step none) (step none s l) := by
      simp
    rcases step_none_cases s l hr with hSE | ⟨hq1, hq2, hq3⟩
    · exfalso
      rw [hfold, b2, countKind_append] at hcount
      omega
    · have hq1' : countKind .synError (step none s l).diags = countKind .synError s.diags := by
        rw [hq1]
      have hcount' : countKind .synError ((rest.foldl (step none) (step none s l)).diags)
          = countKind .synError (step none s l).diags := by
        rw [b2, countKind_append]
        rw [hfold, b2, countKind_append, hq1'] at hcount
        omega
      have hih := ih (step none s l) hq2 hcount'
      rw [hfold, hih, hq3, List.append_assoc]
      congr 1
      by_cases hp : (l.indent = 0 && isDeclLine l) = true <;>
        simp [topDeclNames, List.filter_cons, hp]

/-- C4: for every input with zero syntax errors (the model's notion of a
syntax error is exactly what the parser diagnoses, so the hypothesis states
that the output carries no SyntaxError entry), every top-level declaration
of the input - class, function, or module-level assignment with a simple
name target - appears exactly once, in order, in the output's top-level
symbols. -/
theorem c4_error_free_extraction (lines : List Line)
    (h : countKind .synError (processLines lines).diags = 0) :
    topSymNames (processLines lines) = topDeclNames lines := by
  have hd : (processLines lines).diags = (lines.foldl (step none) initSt).diags := by
    simp [processLines, runLines, finalizeSt_diags]
  have hs : (processLines lines).syms = (lines.foldl (step none) initSt).syms := by
    simp [processLines, runLines, finalizeSt_syms]
  have h0 : countKind .synError ((lines.foldl (step none) initSt)).diags
      = countKind .synError initSt.diags := by
    rw [← hd, h]
    simp [initSt, countKind]
  have hmain := c4_main lines initSt rfl h0
  rw [topSymNames, hs, hmain]
  simp [initSt, topNamesOf]

/-- C4 witness: a file with a module constant, a top-level function, a class
with a nested method and a trailing function extracts exactly the four
top-level names. -/
theorem c4_error_free_extraction_witness :
    topSymNames (processLines (lexLines (strCodes
      "VERSION = 1\n\ndef calc(data):\n    return 1\n\nclass Proc:\n    def run(self):\n        pass\n\ndef final():\n    return 2\n")))
      = topDeclNames (lexLines (strCodes
      "VERSION = 1\n\ndef calc(data):\n    return 1\n\nclass Proc:\n    def run(self):\n        pass\n\ndef final():\n    return 2\n")) :=
  c4_error_free_extraction (lexLines (strCodes
      "VERSION = 1\n\ndef calc(data):\n    return 1\n\nclass Proc:\n    def run(self):\n        pass\n\ndef final():\n    return 2\n"))
    (by decide)

/-! ## Soundness of the cycle detector (C6) -/

/-- Splitting a list at the first occurrence of a member. -/
theorem mem_split_takeWhile (stk : List Chars) (u : Chars) (h : u ∈ stk) :
    stk = stk.takeWhile (fun v => v ≠ u) ++
      u :: (stk.dropWhile (fun v => v ≠ u)).tail := by
  induction stk with
  | nil => simp at h
  | cons a tl ih =>
    by_cases ha : a = u
    · subst ha
      simp [List.takeWhile_cons, List.dropWhile_cons]
    · have hu : u ∈ tl := by
        rcases List.mem_cons.mp h with h' | h'
        · exact absurd h'.symm ha
        · exact h'
      have hpa : (fun v => decide (v ≠ u)) a = true := by simp [ha]
      calc a :: tl
          = a :: (tl.takeWhile (fun v => v ≠ u) ++
              u :: (tl.dropWhile (fun v => v ≠ u)).tail) := by rw [← ih hu]
        _ = (a :: tl).takeWhile (fun v => v ≠ u) ++
              u :: ((a :: tl).dropWhile (fun v => v ≠ u)).tail := by
            simp [List.takeWhile_cons, List.dropWhile_cons, ha]

/-- A stack whose reverse extends to a chain ending in an on-stack node
yields a genuine directed cycle. -/
theorem cycleAt_sound (names : List Chars) (edges : List (Chars × Chars)) (stk : List Chars)
    (u : Chars) (hmem : u ∈ stk)
    (hch : List.Chain' (fun a b => b ∈ succsOf names edges a) (stk.reverse ++ [u])) :
    IsCycle names edges (cycleAt stk u) := by
  have hsplit := mem_split_takeWhile stk u hmem
  rw [hsplit] at hch
  have : (stk.takeWhile (fun v => v ≠ u) ++
      u :: (stk.dropWhile (fun v => v ≠ u)).tail).reverse ++ [u]
      = ((stk.dropWhile (fun v => v ≠ u)).tail.reverse) ++
          (u :: ((stk.takeWhile (fun v => v ≠ u)).reverse ++ [u])) := by
    simp
  rw [this] at hch
  have hch2 := List.Chain'.right_of_append hch
  unfold IsCycle cycleAt
  exact hch2

/-- Appending the next visited node to the reversed stack preserves the
chain property, given an edge from the stack head. -/
theorem chain_push (R : Chars → Chars → Prop) (stk : List Chars) (u : Chars)
    (hch : List.Chain' R stk.reverse)
    (hhd : ∀ h t, stk = h :: t → R h u) :
    List.Chain' R (stk.reverse ++ [u]) := by
  rw [List.chain'_append]
  refine ⟨hch, by simp, ?_⟩
  intro x hx y hy
  simp only [List.head?_cons, Option.mem_some_iff] at hy
  subst hy
  rw [List.getLast?_reverse] at hx
  cases hstk : stk with
  | nil =>
    rw [hstk] at hx
    simp at hx
  | cons h t =>
    rw [hstk] at hx
    simp only [List.head?_cons, Option.mem_some_iff] at hx
    subst hx
    exact hhd h t hstk

/-- Every cycle the depth-first search reports is a directed cycle of the
resolvable-edge relation, whatever the fuel. -/
theorem dfsF_sound (names : List Chars) (edges : List (Chars × Chars)) :
    ∀ (fuel : Nat) (stk vis ws : List Chars),
      List.Chain' (fun a b => b ∈ succsOf names edges a) stk.reverse →
      (∀ u ∈ ws, ∀ h t, stk = h :: t → u ∈ succsOf names edges h) →
      ∀ c ∈ (dfsF names edges fuel stk vis ws).2, IsCycle names edges c := by
  intro fuel
  induction fuel with
  | zero => intro stk vis ws _ _ c hc; simp [dfsF] at hc
  | succ fuel ih =>
    intro stk vis ws hch hws c hc
    cases ws with
    | nil => simp [dfsF] at hc
    | cons u rest =>
      by_cases h1 : stk.contains u = true
      · simp only [dfsF, h1, if_true] at hc
        rcases List.mem_cons.mp hc with rfl | hc'
        · have hmem : u ∈ stk := by simpa using h1
          exact cycleAt_sound names edges stk u hmem
            (chain_push _ stk u hch (fun h t hht => hws u (by simp) h t hht))
        · exact ih stk vis rest hch (fun v hv => hws v (by simp [hv])) c hc'
      · by_cases h2 : vis.contains u = true
        · simp only [dfsF, h1, h2, if_false, if_true] at hc
          exact ih stk vis rest hch (fun v hv => hws v (by simp [hv])) c hc
        · simp only [dfsF, h1, h2, if_false] at hc
          rcases List.mem_append.mp hc with hc' | hc'
          · refine ih (u :: stk) vis (succsOf names edges u) ?_ ?_ c hc'
            · rw [List.reverse_cons]
              exact chain_push _ stk u hch (fun h t hht => hws u (by simp) h t hht)
            · intro v hv h t hht
              have hhu : h = u := by
                have := congrArg List.head? hht
                simpa using this.symm
              subst hhu
              exact hv
          · exact ih stk
              (u :: (dfsF names edges fuel (u :: stk) vis (succsOf names edges u)).1) rest hch
              (fun v hv => hws v (by simp [hv])) c hc'

/-- No cycle is reported over an acyclic edge set, from any clean starting
accumulator. -/
theorem graphCycles_acyclic (names : List Chars) (edges : List (Chars × Chars))
    (hac : Acyclic names edges) : graphCycles names edges = [] := by
  unfold graphCycles
  suffices h : ∀ (us : List Chars) (acc : List Chars × List (List Chars)), acc.2 = [] →
      (us.foldl (fun acc u =>
        let r := dfsF names edges (graphFuel names edges) [] acc.1 [u]
        (r.1, acc.2 ++ r.2)) acc).2 = [] by
    exact h names ([], []) rfl
  intro us
  induction us with
  | nil => intro acc h; simpa using h
  | cons u us ih =>
    intro acc h
    simp only [List.foldl_cons]
    apply ih
    simp only [h, List.nil_append]
    have hsound := dfsF_sound names edges (graphFuel names edges) [] acc.1 [u]
      (by simp) (by intro v _ h t hht; cases hht)
    rcases hr : (dfsF names edges (graphFuel names edges) [] acc.1 [u]).2 with _ | ⟨c, cs⟩
    · rfl
    · exfalso
      exact hac c (hsound c (by rw [hr]; simp))

/-- C6: for the batch with edges A imports B, B imports C, C imports A, the
grapher reports exactly one cycle, whose members are exactly A, B and C,
attached as a diagnostic to exactly one participating file; and for every
acyclic edge set the cycles list is empty. -/
theorem c6_cycle_detection :
    ((processBatch cfgFree [([65], strCodes "import B\n"), ([66], strCodes "import C\n"),
        ([67], strCodes "import A\n")]).cycles = [[[65], [66], [67]]] ∧
      (processBatch cfgFree [([65], strCodes "import B\n"), ([66], strCodes "import C\n"),
        ([67], strCodes "import A\n")]).cycleDiags =
        [([65], ⟨.importCycle, .warn, 0, 0⟩)]) ∧
    (∀ (names : List Chars) (edges : List (Chars × Chars)),
      Acyclic names edges → graphCycles names edges = []) := by
  constructor
  · constructor <;> decide
  · intro names edges hac
    exact graphCycles_acyclic names edges hac

/-! ## Recovery locality (C2)

The frame lemma for recovery needs that two runs whose states agree on the
control signature - the stack of open-block names, kinds and indentations,
plus the indentation of any active recovery - emit the same symbols and
diagnostic kinds on the same remaining lines, up to source positions. -/


/-- A quiet run (no new SyntaxError) leaves the diagnostics untouched and
stays out of recovery. -/
theorem fold_none_quiet (ls : List Line) : ∀ s, s.recov = none →
    countKind .synError ((ls.foldl (step none) s).diags) = countKind .synError s.diags →
    (ls.foldl (step none) s).diags = s.diags ∧ (ls.foldl (step none) s).recov = none := by
  induction ls with
  | nil =>
    intro s hr _
    exact ⟨rfl, hr⟩
  | cons l rest ih =>
    intro s hr hcount
    obtain ⟨ys2, ds2, b1, b2, -, -, -, -⟩ := foldl_step_ext none rest (step none s l)
    rcases step_none_cases s l hr with hSE | ⟨hq1, hq2, -⟩
    · exfalso
      simp only [List.foldl_cons] at hcount
      rw [b2, countKind_append] at hcount
      omega
    · have hcount' : countKind .synError ((rest.foldl (step none) (step none s l)).diags)
          = countKind .synError (step none s l).diags := by
        rw [b2, countKind_append]
        simp only [List.foldl_cons] at hcount
        rw [b2, countKind_append, hq1] at hcount
        omega
      have hrest := ih (step none s l) hq2 hcount'
      simp only [List.foldl_cons]
      exact ⟨by rw [hrest.1, hq1], hrest.2⟩

theorem stackSig_pushNodeSt (s : PSt) (n : Node) :
    stackSig (pushNodeSt s n).stack = stackSig s.stack := by
  cases hs : s.stack <;> simp [pushNodeSt, hs, stackSig, frameSig]

theorem popAttach_sig (i : Nat) (st : List Frame) (n : Node) (top : List Node) (ents : Nat) :
    stackSig (popAttach i st n top ents).1 =
      (stackSig st).dropWhile (fun p => i ≤ p.2.2) := by
  induction st generalizing n top ents with
  | nil => simp [popAttach, stackSig]
  | cons g gs ih =>
    by_cases hg : i ≤ g.indent
    · simp only [popAttach, hg, if_pos, stackSig, List.map_cons, List.dropWhile_cons,
        frameSig, decide_eq_true_eq]
      exact ih _ _ _
    · simp [popAttach, hg, stackSig, frameSig, List.dropWhile_cons]

theorem popTo_sig (i : Nat) (s : PSt) :
    stackSig (popTo i s).stack = (stackSig s.stack).dropWhile (fun p => i ≤ p.2.2) := by
  simp only [popTo, popToAux]
  cases hs : s.stack with
  | nil => simp [stackSig]
  | cons f fs =>
    by_cases hf : i ≤ f.indent
    · simp only [hf, if_pos, stackSig, List.map_cons, List.dropWhile_cons, frameSig,
        decide_eq_true_eq]
      exact popAttach_sig i fs (closeFrame f) s.top (s.ents + 1)
    · simp [hf, stackSig, frameSig, List.dropWhile_cons]

theorem sig_isEmpty (a b : List Frame) (h : stackSig a = stackSig b) :
    a.isEmpty = b.isEmpty := by
  cases a <;> cases b <;> simp_all [stackSig]

theorem sig_length (a b : List Frame) (h : stackSig a = stackSig b) :
    a.length = b.length := by
  have := congrArg List.length h
  simpa [stackSig] using this

theorem dottedName_congr (a b : List Frame) (h : stackSig a = stackSig b) (n : Chars) :
    dottedName a n = dottedName b n := by
  induction a generalizing b n with
  | nil =>
    cases b with
    | nil => rfl
    | cons g gs => simp [stackSig] at h
  | cons f fs ih =>
    cases b with
    | nil => simp [stackSig] at h
    | cons g gs =>
      simp only [stackSig, List.map_cons, List.cons.injEq] at h
      have hn : f.name = g.name := congrArg Prod.fst h.1
      unfold dottedName
      simp only [List.foldl_cons]
      cases hf : f.name with
      | none =>
        rw [hn] at hf
        have := ih gs (by simpa [stackSig] using h.2) n
        simpa [dottedName, hf] using this
      | some m =>
        rw [hn] at hf
        have := ih gs (by simpa [stackSig] using h.2) (m ++ [46] ++ n)
        simpa [dottedName, hf] using this

theorem addSym_stack (s : PSt) (y : Symbol) : (addSym s y).stack = s.stack := rfl

theorem addSym_recov (s : PSt) (y : Symbol) : (addSym s y).recov = s.recov := rfl

theorem openBlock_none_syms (s1 : PSt) (l : Line) (nm : Option Chars) (fk : FrameKind)
    (sy : Option Symbol) : (openBlock none s1 l nm fk sy).syms = s1.syms ++ sy.toList := by
  unfold openBlock overDepth
  cases sy <;> simp [addSym]

theorem openBlock_none_diags (s1 : PSt) (l : Line) (nm : Option Chars) (fk : FrameKind)
    (sy : Option Symbol) : (openBlock none s1 l nm fk sy).diags = s1.diags := by
  unfold openBlock overDepth
  cases sy <;> simp [addSym]

theorem openBlock_none_recov (s1 : PSt) (l : Line) (nm : Option Chars) (fk : FrameKind)
    (sy : Option Symbol) : (openBlock none s1 l nm fk sy).recov = s1.recov := by
  unfold openBlock overDepth
  cases sy <;> simp [addSym]

theorem openBlock_none_sig (s1 : PSt) (l : Line) (nm : Option Chars) (fk : FrameKind)
    (sy : Option Symbol) :
    stackSig (openBlock none s1 l nm fk sy).stack = (nm, fk, l.indent) :: stackSig s1.stack := by
  unfold openBlock overDepth
  cases sy <;> simp [addSym, stackSig, frameSig]

theorem symsP_append (a b : List Symbol) : symsP (a ++ b) = symsP a ++ symsP b := by
  simp [symsP]

/-- Two normal-mode states with the same control signature make the same
transition: same resulting signature, same emitted symbol projections, same
emitted diagnostic kinds. -/
theorem stepNormal_par (s t : PSt) (l : Line)
    (hst : stackSig s.stack = stackSig t.stack)
    (hr : s.recov = none) (hr' : t.recov = none) :
    stackSig (stepNormal none s l).stack = stackSig (stepNormal none t l).stack ∧
    recovSig (stepNormal none s l) = recovSig (stepNormal none t l) ∧
    ∃ d dk,
      symsP (stepNormal none s l).syms = symsP s.syms ++ d ∧
      symsP (stepNormal none t l).syms = symsP t.syms ++ d ∧
      (stepNormal none s l).diags.map (fun x => x.kind) = s.diags.map (fun x => x.kind) ++ dk ∧
      (stepNormal none t l).diags.map (fun x => x.kind) = t.diags.map (fun x => x.kind) ++ dk := by
  have hsig1 : stackSig (popTo l.indent s).stack = stackSig (popTo l.indent t).stack := by
    rw [popTo_sig, popTo_sig, hst]
  have hemp : (popTo l.indent s).stack.isEmpty = (popTo l.indent t).stack.isEmpty :=
    sig_isEmpty _ _ hsig1
  have hlen : (popTo l.indent s).stack.length = (popTo l.indent t).stack.length :=
    sig_length _ _ hsig1
  have hdn : ∀ n, dottedName (popTo l.indent s).stack n = dottedName (popTo l.indent t).stack n :=
    fun n => dottedName_congr _ _ hsig1 n
  have hSR : ∀ (a b : PSt) (ri : Nat), stackSig a.stack = stackSig b.stack →
      stackSig (startRecovery a ri).stack = stackSig (startRecovery b ri).stack ∧
      recovSig (startRecovery a ri) = recovSig (startRecovery b ri) ∧
      (startRecovery a ri).syms = a.syms ∧ (startRecovery b ri).syms = b.syms ∧
      (startRecovery a ri).diags.map (fun x => x.kind) = a.diags.map (fun x => x.kind) ++ [.synError] ∧
      (startRecovery b ri).diags.map (fun x => x.kind) = b.diags.map (fun x => x.kind) ++ [.synError] := by
    intro a b ri hab
    refine ⟨hab, rfl, rfl, rfl, ?_, ?_⟩ <;> simp [startRecovery, addDiag]
  unfold stepNormal
  cases hc : classify l.content <;> simp only [hc]
  case blank => exact ⟨hst, by rw [recovSig, recovSig, hr, hr'], [], [], by simp, by simp, by simp, by simp⟩
  case comment => exact ⟨hst, by rw [recovSig, recovSig, hr, hr'], [], [], by simp, by simp, by simp, by simp⟩
  case malformed =>
    by_cases ho : ((popTo l.indent s).stack.isEmpty && l.indent != 0) = true
    · rw [if_pos ho, if_pos (by rw [← hemp]; exact ho)]
      obtain ⟨a1, a2, a3, a4, a5, a6⟩ := hSR (popTo l.indent s) (popTo l.indent t) l.indent hsig1
      exact ⟨a1, a2, [], [.synError], by simp [a3, popTo_syms], by simp [a4, popTo_syms],
        by simp only [a5, popTo_diags], by simp only [a6, popTo_diags]⟩
    · rw [if_neg ho, if_neg (by rw [← hemp]; exact ho)]
      obtain ⟨a1, a2, a3, a4, a5, a6⟩ := hSR (popTo l.indent s) (popTo l.indent t) l.indent hsig1
      exact ⟨a1, a2, [], [.synError], by simp [a3, popTo_syms], by simp [a4, popTo_syms],
        by simp only [a5, popTo_diags], by simp only [a6, popTo_diags]⟩
  case importL m =>
    by_cases ho : ((popTo l.indent s).stack.isEmpty && l.indent != 0) = true
    · rw [if_pos ho, if_pos (by rw [← hemp]; exact ho)]
      obtain ⟨a1, a2, a3, a4, a5, a6⟩ := hSR (popTo l.indent s) (popTo l.indent t) l.indent hsig1
      exact ⟨a1, a2, [], [.synError], by simp [a3, popTo_syms], by simp [a4, popTo_syms],
        by simp only [a5, popTo_diags], by simp only [a6, popTo_diags]⟩
    · rw [if_neg ho, if_neg (by rw [← hemp]; exact ho)]
      refine ⟨?_, ?_, [], [], ?_, ?_, ?_, ?_⟩ <;>
        simp [stackSig_pushNodeSt, hsig1, recovSig, pushNodeSt_recov, popTo_recov', hr, hr',
          pushNodeSt_syms, popTo_syms, pushNodeSt_diags, popTo_diags]
  case plain =>
    by_cases ho : ((popTo l.indent s).stack.isEmpty && l.indent != 0) = true
    · rw [if_pos ho, if_pos (by rw [← hemp]; exact ho)]
      obtain ⟨a1, a2, a3, a4, a5, a6⟩ := hSR (popTo l.indent s) (popTo l.indent t) l.indent hsig1
      exact ⟨a1, a2, [], [.synError], by simp [a3, popTo_syms], by simp [a4, popTo_syms],
        by simp only [a5, popTo_diags], by simp only [a6, popTo_diags]⟩
    · rw [if_neg ho, if_neg (by rw [← hemp]; exact ho)]
      refine ⟨?_, ?_, [], [], ?_, ?_, ?_, ?_⟩ <;>
        simp [stackSig_pushNodeSt, hsig1, recovSig, pushNodeSt_recov, popTo_recov', hr, hr',
          pushNodeSt_syms, popTo_syms, pushNodeSt_diags, popTo_diags]
  case defH n sg =>
    by_cases ho : ((popTo l.indent s).stack.isEmpty && l.indent != 0) = true
    · rw [if_pos ho, if_pos (by rw [← hemp]; exact ho)]
      obtain ⟨a1, a2, a3, a4, a5, a6⟩ := hSR (popTo l.indent s) (popTo l.indent t) l.indent hsig1
      exact ⟨a1, a2, [], [.synError], by simp [a3, popTo_syms], by simp [a4, popTo_syms],
        by simp only [a5, popTo_diags], by simp only [a6, popTo_diags]⟩
    · rw [if_neg ho, if_neg (by rw [← hemp]; exact ho)]
      refine ⟨?_, ?_,
        [(dottedName (popTo l.indent s).stack n, .func, sg, (popTo l.indent s).stack.length)],
        [], ?_, ?_, ?_, ?_⟩
      · rw [openBlock_none_sig, openBlock_none_sig, hsig1]
      · simp [recovSig, openBlock_none_recov, popTo_recov', hr, hr']
      · simp [openBlock_none_syms, symsP_append, popTo_syms, symsP, symP]
      · simp [openBlock_none_syms, symsP_append, popTo_syms, symsP, symP, hdn, hlen]
      · simp [openBlock_none_diags, popTo_diags]
      · simp [openBlock_none_diags, popTo_diags]
  case classH n =>
    by_cases ho : ((popTo l.indent s).stack.isEmpty && l.indent != 0) = true
    · rw [if_pos ho, if_pos (by rw [← hemp]; exact ho)]
      obtain ⟨a1, a2, a3, a4, a5, a6⟩ := hSR (popTo l.indent s) (popTo l.indent t) l.indent hsig1
      exact ⟨a1, a2, [], [.synError], by simp [a3, popTo_syms], by simp [a4, popTo_syms],
        by simp only [a5, popTo_diags], by simp only [a6, popTo_diags]⟩
    · rw [if_neg ho, if_neg (by rw [← hemp]; exact ho)]
      refine ⟨?_, ?_,
        [(dottedName (popTo l.indent s).stack n, .cls, [], (popTo l.indent s).stack.length)],
        [], ?_, ?_, ?_, ?_⟩
      · rw [openBlock_none_sig, openBlock_none_sig, hsig1]
      · simp [recovSig, openBlock_none_recov, popTo_recov', hr, hr']
      · simp [openBlock_none_syms, symsP_append, popTo_syms, symsP, symP]
      · simp [openBlock_none_syms, symsP_append, popTo_syms, symsP, symP, hdn, hlen]
      · simp [openBlock_none_diags, popTo_diags]
      · simp [openBlock_none_diags, popTo_diags]
  case compoundH =>
    by_cases ho : ((popTo l.indent s).stack.isEmpty && l.indent != 0) = true
    · rw [if_pos ho, if_pos (by rw [← hemp]; exact ho)]
      obtain ⟨a1, a2, a3, a4, a5, a6⟩ := hSR (popTo l.indent s) (popTo l.indent t) l.indent hsig1
      exact ⟨a1, a2, [], [.synError], by simp [a3, popTo_syms], by simp [a4, popTo_syms],
        by simp only [a5, popTo_diags], by simp only [a6, popTo_diags]⟩
    · rw [if_neg ho, if_neg (by rw [← hemp]; exact ho)]
      refine ⟨?_, ?_, [], [], ?_, ?_, ?_, ?_⟩
      · rw [openBlock_none_sig, openBlock_none_sig, hsig1]
      · simp [recovSig, openBlock_none_recov, popTo_recov', hr, hr']
      · simp [openBlock_none_syms, symsP_append, popTo_syms]
      · simp [openBlock_none_syms, symsP_append, popTo_syms]
      · simp [openBlock_none_diags, popTo_diags]
      · simp [openBlock_none_diags, popTo_diags]
  case assignL n =>
    by_cases ho : ((popTo l.indent s).stack.isEmpty && l.indent != 0) = true
    · rw [if_pos ho, if_pos (by rw [← hemp]; exact ho)]
      obtain ⟨a1, a2, a3, a4, a5, a6⟩ := hSR (popTo l.indent s) (popTo l.indent t) l.indent hsig1
      exact ⟨a1, a2, [], [.synError], by simp [a3, popTo_syms], by simp [a4, popTo_syms],
        by simp only [a5, popTo_diags], by simp only [a6, popTo_diags]⟩
    · rw [if_neg ho,
        if_neg (show ¬((popTo l.indent t).stack.isEmpty && l.indent != 0) = true by
          rw [← hemp]; exact ho)]
      by_cases he : (popTo l.indent s).stack.isEmpty = true
      · rw [if_pos he,
          if_pos (show (popTo l.indent t).stack.isEmpty = true by rw [← hemp]; exact he)]
        refine ⟨?_, ?_, [(n, .var, [], 0)], [], ?_, ?_, ?_, ?_⟩ <;>
          simp [stackSig_pushNodeSt, hsig1, recovSig, pushNodeSt_recov, popTo_recov', hr, hr',
            pushNodeSt_syms, addSym_syms, symsP_append, popTo_syms, symsP, symP,
            pushNodeSt_diags, addSym_diags, popTo_diags, addSym_stack, addSym_recov]
      · rw [if_neg he,
          if_neg (show ¬(popTo l.indent t).stack.isEmpty = true by rw [← hemp]; exact he)]
        refine ⟨?_, ?_, [], [], ?_, ?_, ?_, ?_⟩ <;>
          simp [stackSig_pushNodeSt, hsig1, recovSig, pushNodeSt_recov, popTo_recov', hr, hr',
            pushNodeSt_syms, popTo_syms, pushNodeSt_diags, popTo_diags]

theorem recordEdge_stack (s : PSt) (l : Line) : (recordEdge s l).stack = s.stack := by
  unfold recordEdge
  cases h : classify l.content <;> simp

/-- The full transition relation respects the control signature: two states
with the same signature consume a line identically up to source
positions. -/
theorem step_par (s t : PSt) (l : Line)
    (hst : stackSig s.stack = stackSig t.stack) (hrc : recovSig s = recovSig t) :
    stackSig (step none s l).stack = stackSig (step none t l).stack ∧
    recovSig (step none s l) = recovSig (step none t l) ∧
    ∃ d dk,
      symsP (step none s l).syms = symsP s.syms ++ d ∧
      symsP (step none t l).syms = symsP t.syms ++ d ∧
      (step none s l).diags.map (fun x => x.kind) = s.diags.map (fun x => x.kind) ++ dk ∧
      (step none t l).diags.map (fun x => x.kind) = t.diags.map (fun x => x.kind) ++ dk := by
  cases hr : s.recov with
  | none =>
    have hr' : t.recov = none := by
      rw [recovSig, recovSig, hr] at hrc
      cases ht : t.recov with
      | none => rfl
      | some p => rw [ht] at hrc; simp at hrc
    have hre : (recordEdge s l).recov = none := by rw [recordEdge_recov, hr]
    have hre' : (recordEdge t l).recov = none := by rw [recordEdge_recov, hr']
    obtain ⟨h1, h2, d, dk, h3, h4, h5, h6⟩ :=
      stepNormal_par (recordEdge s l) (recordEdge t l) l
        (by rw [recordEdge_stack, recordEdge_stack, hst]) hre hre'
    have hu : ∀ u : PSt, (recordEdge u l).recov = none →
        (step none u l).stack = (stepNormal none (recordEdge u l) l).stack ∧
        (step none u l).recov = (stepNormal none (recordEdge u l) l).recov ∧
        (step none u l).syms = (stepNormal none (recordEdge u l) l).syms ∧
        (step none u l).diags = (stepNormal none (recordEdge u l) l).diags := by
      intro u hu0
      simp only [step, hu0]
      exact ⟨trivial, trivial, trivial, trivial⟩
    obtain ⟨a1, a2, a3, a4⟩ := hu s hre
    obtain ⟨b1, b2, b3, b4⟩ := hu t hre'
    refine ⟨?_, ?_, d, dk, ?_, ?_, ?_, ?_⟩
    · rw [a1, b1]; exact h1
    · rw [recovSig, recovSig, a2, b2]; exact h2
    · rw [a3, h3, recordEdge_syms]
    · rw [b3, h4, recordEdge_syms]
    · rw [a4, h5, recordEdge_diags]
    · rw [b4, h6, recordEdge_diags]
  | some p =>
    cases p with
    | mk ri a =>
      obtain ⟨b, hb⟩ : ∃ b, t.recov = some (ri, b) := by
        rw [recovSig, recovSig, hr] at hrc
        cases ht : t.recov with
        | none => rw [ht] at hrc; simp at hrc
        | some q =>
          rw [ht] at hrc
          simp at hrc
          exact ⟨q.2, by rw [hrc]⟩
      have hre : (recordEdge s l).recov = some (ri, a) := by rw [recordEdge_recov, hr]
      have hre' : (recordEdge t l).recov = some (ri, b) := by rw [recordEdge_recov, hb]
      have hu : ∀ (u : PSt) (x y : Nat), (recordEdge u l).recov = some (x, y) →
          (step none u l) = { (if isBoundary x l then
              stepNormal none (pushNodeSt { recordEdge u l with recov := none }
                (.errorN x y (recordEdge u l).line)) l
            else recordEdge u l) with
            line := (if isBoundary x l then
              stepNormal none (pushNodeSt { recordEdge u l with recov := none }
                (.errorN x y (recordEdge u l).line)) l
            else recordEdge u l).line + 1 } := by
        intro u x y hu0
        simp only [step, hu0]
      by_cases hbd : isBoundary ri l = true
      · have hs' := hu s ri a hre
        have ht' := hu t ri b hre'
        rw [if_pos hbd] at hs' ht'
        obtain ⟨h1, h2, d, dk, h3, h4, h5, h6⟩ :=
          stepNormal_par
            (pushNodeSt { recordEdge s l with recov := none } (.errorN ri a (recordEdge s l).line))
            (pushNodeSt { recordEdge t l with recov := none } (.errorN ri b (recordEdge t l).line))
            l
            (by rw [stackSig_pushNodeSt, stackSig_pushNodeSt]
                simp only [recordEdge_stack]
                exact hst)
            (by rw [pushNodeSt_recov]) (by rw [pushNodeSt_recov])
        refine ⟨?_, ?_, d, dk, ?_, ?_, ?_, ?_⟩
        · rw [hs', ht']; exact h1
        · rw [recovSig, recovSig, hs', ht']; exact h2
        · rw [hs']
          simpa [pushNodeSt_syms, recordEdge_syms] using h3
        · rw [ht']
          simpa [pushNodeSt_syms, recordEdge_syms] using h4
        · rw [hs']
          simpa [pushNodeSt_diags, recordEdge_diags] using h5
        · rw [ht']
          simpa [pushNodeSt_diags, recordEdge_diags] using h6
      · have hs' := hu s ri a hre
        have ht' := hu t ri b hre'
        rw [if_neg hbd] at hs' ht'
        refine ⟨?_, ?_, [], [], ?_, ?_, ?_, ?_⟩
        · rw [hs', ht']
          simp only [recordEdge_stack]
          exact hst
        · rw [recovSig, recovSig, hs', ht']
          simp [recordEdge_recov, hr, hb]
        · rw [hs']
          simp [recordEdge_syms]
        · rw [ht']
          simp [recordEdge_syms]
        · rw [hs']
          simp [recordEdge_diags]
        · rw [ht']
          simp [recordEdge_diags]

/-- The frame lemma: from signature-equal states, folding the same lines
emits the same symbol projections and the same diagnostic kinds. -/
theorem fold_par (ls : List Line) : ∀ s t : PSt,
    stackSig s.stack = stackSig t.stack → recovSig s = recovSig t →
    ∃ d dk,
      symsP ((ls.foldl (step none) s).syms) = symsP s.syms ++ d ∧
      symsP ((ls.foldl (step none) t).syms) = symsP t.syms ++ d ∧
      ((ls.foldl (step none) s).diags).map (fun x => x.kind) = s.diags.map (fun x => x.kind) ++ dk ∧
      ((ls.foldl (step none) t).diags).map (fun x => x.kind) = t.diags.map (fun x => x.kind) ++ dk := by
  induction ls with
  | nil => intro s t _ _; exact ⟨[], [], by simp, by simp, by simp, by simp⟩
  | cons l rest ih =>
    intro s t hst hrc
    obtain ⟨h1, h2, d1, dk1, h3, h4, h5, h6⟩ := step_par s t l hst hrc
    obtain ⟨d2, dk2, g1, g2, g3, g4⟩ := ih (step none s l) (step none t l) h1 h2
    refine ⟨d1 ++ d2, dk1 ++ dk2, ?_, ?_, ?_, ?_⟩ <;>
      simp only [List.foldl_cons, g1, g2, g3, g4, h3, h4, h5, h6, List.append_assoc]


theorem headerDelta_symsP (p : Line) (ln ln' : Nat) :
    symsP (headerDelta p ln) = symsP (headerDelta p ln') := by
  unfold headerDelta
  cases classify p.content <;> simp [symsP, symP]

theorem classify_header_startsHeaderKw (c : Chars) (hk : isHdrL (classify c) = true) :
    startsHeaderKw c = true := by
  unfold classify at hk
  split_ifs at hk with h1 h2 h3 h4 h5 h6 h7 h8 h9 h10 <;>
    first
      | (simp [startsHeaderKw, *]; done)
      | (simp [isHdrL] at hk; done)
      | (rcases ha : assignSplit c with _ | ⟨nm, rhs⟩ <;>
          rw [ha] at hk <;>
          first
            | (simp [isHdrL] at hk; done)
            | (by_cases hrh : rstrip rhs = [] <;> simp [isHdrL, hrh] at hk))

theorem isBoundary_pos_indent (ri : Nat) (l : Line) (hi : 0 < l.indent) (hri : ri = 0) :
    isBoundary ri l = false := by
  subst hri
  simp [isBoundary]
  omega

theorem isBoundary_header0 (p : Line) (hi : p.indent = 0)
    (hk : isHdrL (classify p.content) = true) : isBoundary 0 p = true := by
  simp [isBoundary, hi, classify_header_startsHeaderKw p.content hk]

/-- Consuming a well-formed header line at indentation zero in normal mode:
the header's symbol is emitted at depth zero, no diagnostic appears, and the
stack becomes exactly the header's frame. -/
theorem stepNormal_header0 (s : PSt) (p : Line) (hr : s.recov = none) (hi : p.indent = 0)
    (hk : isHdrL (classify p.content) = true) :
    (stepNormal none s p).syms = s.syms ++ headerDelta p s.line ∧
    (stepNormal none s p).diags = s.diags ∧ (stepNormal none s p).recov = none ∧
    stackSig (stepNormal none s p).stack = headerSig p := by
  have hempty : (popTo p.indent s).stack = [] := by
    rw [hi]
    exact popTo_zero_stack s
  have hho : ¬((popTo p.indent s).stack.isEmpty && p.indent != 0) = true := by
    simp [hi]
  unfold stepNormal
  cases hc : classify p.content <;> rw [hc] at hk <;> simp only [hc] <;>
    try (simp [isHdrL] at hk; done)
  case defH n sg =>
    rw [if_neg hho]
    refine ⟨?_, ?_, ?_, ?_⟩
    · rw [openBlock_none_syms, popTo_syms]
      simp [headerDelta, hc, hempty, dottedName, popTo_line]
    · rw [openBlock_none_diags, popTo_diags]
    · rw [openBlock_none_recov, popTo_recov']
      exact hr
    · rw [openBlock_none_sig, hempty]
      simp [stackSig, headerSig, hc, hi]
  case classH n =>
    rw [if_neg hho]
    refine ⟨?_, ?_, ?_, ?_⟩
    · rw [openBlock_none_syms, popTo_syms]
      simp [headerDelta, hc, hempty, dottedName, popTo_line]
    · rw [openBlock_none_diags, popTo_diags]
    · rw [openBlock_none_recov, popTo_recov']
      exact hr
    · rw [openBlock_none_sig, hempty]
      simp [stackSig, headerSig, hc, hi]
  case compoundH =>
    rw [if_neg hho]
    refine ⟨?_, ?_, ?_, ?_⟩
    · rw [openBlock_none_syms, popTo_syms]
      simp [headerDelta, hc]
    · rw [openBlock_none_diags, popTo_diags]
    · rw [openBlock_none_recov, popTo_recov']
      exact hr
    · rw [openBlock_none_sig, hempty]
      simp [stackSig, headerSig, hc, hi]

/-- A header line at indentation zero consumed in normal mode. -/
theorem step_header0 (s : PSt) (p : Line) (hr : s.recov = none) (hi : p.indent = 0)
    (hk : isHdrL (classify p.content) = true) :
    (step none s p).syms = s.syms ++ headerDelta p s.line ∧
    (step none s p).diags = s.diags ∧ (step none s p).recov = none ∧
    stackSig (step none s p).stack = headerSig p := by
  have hre : (recordEdge s p).recov = none := by rw [recordEdge_recov, hr]
  have hstep : step none s p =
      { stepNormal none (recordEdge s p) p with
          line := (stepNormal none (recordEdge s p) p).line + 1 } := by
    simp only [step, hre]
  obtain ⟨h1, h2, h3, h4⟩ := stepNormal_header0 (recordEdge s p) p hre hi hk
  rw [recordEdge_syms, recordEdge_line] at h1
  rw [recordEdge_diags] at h2
  refine ⟨?_, ?_, ?_, ?_⟩
  · rw [hstep]
    exact h1
  · rw [hstep]
    exact h2
  · rw [hstep]
    exact h3
  · rw [hstep]
    exact h4

/-- A header line at indentation zero consumed in recovery at a boundary:
the error region closes and the header is processed normally. -/
theorem step_header0_rec (s : PSt) (p : Line) (ri a : Nat) (hr : s.recov = some (ri, a))
    (hb : isBoundary ri p = true) (hi : p.indent = 0)
    (hk : isHdrL (classify p.content) = true) :
    (step none s p).syms = s.syms ++ headerDelta p s.line ∧
    (step none s p).diags = s.diags ∧ (step none s p).recov = none ∧
    stackSig (step none s p).stack = headerSig p := by
  have hre : (recordEdge s p).recov = some (ri, a) := by rw [recordEdge_recov, hr]
  have hstep : step none s p =
      { stepNormal none (pushNodeSt { recordEdge s p with recov := none }
            (.errorN ri a (recordEdge s p).line)) p with
          line := (stepNormal none (pushNodeSt { recordEdge s p with recov := none }
            (.errorN ri a (recordEdge s p).line)) p).line + 1 } := by
    simp only [step, hre]
    rw [if_pos hb]
  set u := pushNodeSt { recordEdge s p with recov := none }
    (.errorN ri a (recordEdge s p).line) with hu
  have hur : u.recov = none := by rw [hu, pushNodeSt_recov]
  have husy : u.syms = s.syms := by
    rw [hu, pushNodeSt_syms]
    exact recordEdge_syms s p
  have hud : u.diags = s.diags := by
    rw [hu, pushNodeSt_diags]
    exact recordEdge_diags s p
  have hul : u.line = s.line := by
    rw [hu, pushNodeSt_line]
    exact recordEdge_line s p
  obtain ⟨h1, h2, h3, h4⟩ := stepNormal_header0 u p hur hi hk
  rw [husy, hul] at h1
  rw [hud] at h2
  refine ⟨?_, ?_, ?_, ?_⟩
  · rw [hstep]
    exact h1
  · rw [hstep]
    exact h2
  · rw [hstep]
    exact h3
  · rw [hstep]
    exact h4

/-- A malformed line at indentation zero in normal mode: one SyntaxError is
recorded, recovery begins at indentation zero, and the stack empties. -/
theorem step_malformed0 (s : PSt) (l : Line) (hr : s.recov = none) (hi : l.indent = 0)
    (hc : classify l.content = .malformed) :
    (step none s l).syms = s.syms ∧
    (step none s l).diags = s.diags ++ [⟨.synError, .err, s.line, s.line + 1⟩] ∧
    (step none s l).recov = some (0, s.line) ∧
    (step none s l).stack = [] := by
  have hre : (recordEdge s l).recov = none := by rw [recordEdge_recov, hr]
  have hstep : step none s l =
      { stepNormal none (recordEdge s l) l with
          line := (stepNormal none (recordEdge s l) l).line + 1 } := by
    simp only [step, hre]
  have hho : ¬((popTo l.indent (recordEdge s l)).stack.isEmpty && l.indent != 0) = true := by
    simp [hi]
  have h0 : (popTo l.indent (recordEdge s l)).stack = [] := by
    rw [hi]
    exact popTo_zero_stack _
  have hsn : stepNormal none (recordEdge s l) l =
      startRecovery (popTo l.indent (recordEdge s l)) l.indent := by
    unfold stepNormal
    simp only [hc]
    rw [if_neg hho]
  refine ⟨?_, ?_, ?_, ?_⟩
  · rw [hstep, hsn]
    simp [startRecovery, addDiag, popTo_syms, recordEdge_syms]
  · rw [hstep, hsn]
    simp [startRecovery, addDiag, popTo_diags, recordEdge_diags, popTo_line, recordEdge_line]
  · rw [hstep, hsn]
    simp [startRecovery, addDiag, popTo_line, recordEdge_line, hi]
  · rw [hstep, hsn]
    simp [startRecovery, addDiag, h0]

/-- A non-boundary line during recovery is discarded: symbols, diagnostics,
recovery state and stack are all unchanged. -/
theorem step_discard (s : PSt) (l : Line) (ri a : Nat) (hr : s.recov = some (ri, a))
    (hb : isBoundary ri l = false) :
    (step none s l).syms = s.syms ∧ (step none s l).diags = s.diags ∧
    (step none s l).recov = s.recov ∧ (step none s l).stack = s.stack := by
  have hre : (recordEdge s l).recov = some (ri, a) := by rw [recordEdge_recov, hr]
  have hbd : ¬(isBoundary ri l = true) := by simp [hb]
  have hstep : step none s l = { recordEdge s l with line := (recordEdge s l).line + 1 } := by
    simp only [step, hre]
    rw [if_neg hbd, hre]
  refine ⟨?_, ?_, ?_, ?_⟩
  · rw [hstep]
    exact recordEdge_syms s l
  · rw [hstep]
    exact recordEdge_diags s l
  · rw [hstep]
    exact recordEdge_recov s l
  · rw [hstep]
    exact recordEdge_stack s l

/-- A whole region of non-boundary lines is discarded during recovery. -/
theorem fold_discard (ls : List Line) : ∀ (s : PSt) (ri a : Nat), s.recov = some (ri, a) →
    (∀ l ∈ ls, isBoundary ri l = false) →
    (ls.foldl (step none) s).syms = s.syms ∧
    (ls.foldl (step none) s).diags = s.diags ∧
    (ls.foldl (step none) s).recov = s.recov ∧
    (ls.foldl (step none) s).stack = s.stack := by
  induction ls with
  | nil =>
    intro s ri a _ _
    exact ⟨rfl, rfl, rfl, rfl⟩
  | cons l rest ih =>
    intro s ri a hr hall
    obtain ⟨h1, h2, h3, h4⟩ := step_discard s l ri a hr (hall l (by simp))
    have hr' : (step none s l).recov = some (ri, a) := by rw [h3, hr]
    obtain ⟨g1, g2, g3, g4⟩ := ih (step none s l) ri a hr' (fun x hx => hall x (by simp [hx]))
    simp only [List.foldl_cons]
    exact ⟨by rw [g1, h1], by rw [g2, h2], by rw [g3, h3, hr, ← hr'], by rw [g4, h4]⟩

/-- On an indented line in normal mode, either a SyntaxError is recorded or
the step is quiet and every emitted symbol sits at positive depth. -/
theorem step_none_deep (s : PSt) (l : Line) (hr : s.recov = none) (hi : 0 < l.indent) :
    countKind .synError (step none s l).diags = countKind .synError s.diags + 1 ∨
    ((step none s l).diags = s.diags ∧ (step none s l).recov = none ∧
      ∃ d, (step none s l).syms = s.syms ++ d ∧ ∀ y ∈ d, 0 < y.depth) := by
  have hsy : (recordEdge s l).syms = s.syms := recordEdge_syms s l
  have hdg : (recordEdge s l).diags = s.diags := recordEdge_diags s l
  have hstep : step none s l =
      { stepNormal none (recordEdge s l) l with
          line := (stepNormal none (recordEdge s l) l).line + 1 } := by
    simp only [step, recordEdge_recov, hr]
  set s0 := recordEdge s l with hs0
  have hr0 : s0.recov = none := by rw [hs0, recordEdge_recov, hr]
  have hSE : ∀ s' : PSt, s'.diags = s.diags →
      countKind .synError (startRecovery s' l.indent).diags =
        countKind .synError s.diags + 1 := by
    intro s' h
    rw [startRecovery_diags, h, countKind_append]
    simp [countKind]
  unfold stepNormal at hstep
  cases hc : classify l.content <;> simp only [hc] at hstep
  case blank =>
    refine Or.inr ⟨?_, ?_, [], ?_, ?_⟩
    · simp [hstep, hdg]
    · simp [hstep, hr0]
    · simp [hstep, hsy]
    · intro y hy
      simp at hy
  case comment =>
    refine Or.inr ⟨?_, ?_, [], ?_, ?_⟩
    · simp [hstep, hdg]
    · simp [hstep, hr0]
    · simp [hstep, hsy]
    · intro y hy
      simp at hy
  case importL m =>
    by_cases ho : ((popTo l.indent s0).stack.isEmpty && l.indent != 0) = true
    · rw [if_pos ho] at hstep
      exact Or.inl (by simp only [hstep]; exact hSE _ (by rw [popTo_diags, hdg]))
    · rw [if_neg ho] at hstep
      refine Or.inr ⟨?_, ?_, [], ?_, ?_⟩
      · simp [hstep, pushNodeSt_diags, popTo_diags, hdg]
      · simp [hstep, pushNodeSt_recov, popTo_recov', hr0]
      · simp [hstep, pushNodeSt_syms, popTo_syms, hsy]
      · intro y hy
        simp at hy
  case plain =>
    by_cases ho : ((popTo l.indent s0).stack.isEmpty && l.indent != 0) = true
    · rw [if_pos ho] at hstep
      exact Or.inl (by simp only [hstep]; exact hSE _ (by rw [popTo_diags, hdg]))
    · rw [if_neg ho] at hstep
      refine Or.inr ⟨?_, ?_, [], ?_, ?_⟩
      · simp [hstep, pushNodeSt_diags, popTo_diags, hdg]
      · simp [hstep, pushNodeSt_recov, popTo_recov', hr0]
      · simp [hstep, pushNodeSt_syms, popTo_syms, hsy]
      · intro y hy
        simp at hy
  case compoundH =>
    by_cases ho : ((popTo l.indent s0).stack.isEmpty && l.indent != 0) = true
    · rw [if_pos ho] at hstep
      exact Or.inl (by simp only [hstep]; exact hSE _ (by rw [popTo_diags, hdg]))
    · rw [if_neg ho] at hstep
      refine Or.inr ⟨?_, ?_, [], ?_, ?_⟩
      · simp [hstep, openBlock, overDepth, addSym, popTo_diags, hdg]
      · simp [hstep, openBlock, overDepth, addSym, popTo_recov', hr0]
      · simp [hstep, openBlock, overDepth, addSym, popTo_syms, hsy]
      · intro y hy
        simp at hy
  case malformed =>
    by_cases ho : ((popTo l.indent s0).stack.isEmpty && l.indent != 0) = true
    · rw [if_pos ho] at hstep
      exact Or.inl (by simp only [hstep]; exact hSE _ (by rw [popTo_diags, hdg]))
    · rw [if_neg ho] at hstep
      exact Or.inl (by simp only [hstep]; exact hSE _ (by rw [popTo_diags, hdg]))
  case defH n sg =>
    by_cases ho : ((popTo l.indent s0).stack.isEmpty && l.indent != 0) = true
    · rw [if_pos ho] at hstep
      exact Or.inl (by simp only [hstep]; exact hSE _ (by rw [popTo_diags, hdg]))
    · rw [if_neg ho] at hstep
      have hne : ¬((popTo l.indent s0).stack.isEmpty = true) := by
        intro he
        apply ho
        rw [he]
        simp
        omega
      have hlen : 0 < (popTo l.indent s0).stack.length := by
        cases hst : (popTo l.indent s0).stack with
        | nil => exact absurd (by rw [hst]; rfl) hne
        | cons f fs => simp [hst]
      refine Or.inr ⟨?_, ?_,
        [⟨dottedName (popTo l.indent s0).stack n, .func, sg, (popTo l.indent s0).line,
          (popTo l.indent s0).stack.length⟩], ?_, ?_⟩
      · simp [hstep, openBlock, overDepth, addSym, popTo_diags, hdg]
      · simp [hstep, openBlock, overDepth, addSym, popTo_recov', hr0]
      · simp [hstep, openBlock, overDepth, addSym, popTo_syms, hsy]
      · intro y hy
        rw [List.mem_singleton] at hy
        rw [hy]
        exact hlen
  case classH n =>
    by_cases ho : ((popTo l.indent s0).stack.isEmpty && l.indent != 0) = true
    · rw [if_pos ho] at hstep
      exact Or.inl (by simp only [hstep]; exact hSE _ (by rw [popTo_diags, hdg]))
    · rw [if_neg ho] at hstep
      have hne : ¬((popTo l.indent s0).stack.isEmpty = true) := by
        intro he
        apply ho
        rw [he]
        simp
        omega
      have hlen : 0 < (popTo l.indent s0).stack.length := by
        cases hst : (popTo l.indent s0).stack with
        | nil => exact absurd (by rw [hst]; rfl) hne
        | cons f fs => simp [hst]
      refine Or.inr ⟨?_, ?_,
        [⟨dottedName (popTo l.indent s0).stack n, .cls, [], (popTo l.indent s0).line,
          (popTo l.indent s0).stack.length⟩], ?_, ?_⟩
      · simp [hstep, openBlock, overDepth, addSym, popTo_diags, hdg]
      · simp [hstep, openBlock, overDepth, addSym, popTo_recov', hr0]
      · simp [hstep, openBlock, overDepth, addSym, popTo_syms, hsy]
      · intro y hy
        rw [List.mem_singleton] at hy
        rw [hy]
        exact hlen
  case assignL n =>
    by_cases ho : ((popTo l.indent s0).stack.isEmpty && l.indent != 0) = true
    · rw [if_pos ho] at hstep
      exact Or.inl (by simp only [hstep]; exact hSE _ (by rw [popTo_diags, hdg]))
    · by_cases he : (popTo l.indent s0).stack.isEmpty = true
      · exact absurd (by rw [he]; simp; omega) ho
      · rw [if_neg ho, if_neg he] at hstep
        refine Or.inr ⟨?_, ?_, [], ?_, ?_⟩
        · simp [hstep, pushNodeSt_diags, popTo_diags, hdg]
        · simp [hstep, pushNodeSt_recov, popTo_recov', hr0]
        · simp [hstep, pushNodeSt_syms, popTo_syms, hsy]
        · intro y hy
          simp at hy

/-- A quiet run over indented lines in normal mode keeps diagnostics and
recovery unchanged, and everything it emits sits at positive depth. -/
theorem fold_deep (ls : List Line) : ∀ s : PSt, s.recov = none →
    (∀ l ∈ ls, 0 < l.indent) →
    countKind .synError ((ls.foldl (step none) s).diags) = countKind .synError s.diags →
    (ls.foldl (step none) s).diags = s.diags ∧ (ls.foldl (step none) s).recov = none ∧
    ∃ d, (ls.foldl (step none) s).syms = s.syms ++ d ∧ ∀ y ∈ d, 0 < y.depth := by
  induction ls with
  | nil =>
    intro s hr _ _
    exact ⟨rfl, hr, [], by simp, by simp⟩
  | cons l rest ih =>
    intro s hr hall hcount
    obtain ⟨ys2, ds2, b1, b2, -, -, -, -⟩ := foldl_step_ext none rest (step none s l)
    rcases step_none_deep s l hr (hall l (by simp)) with hSE | ⟨hq1, hq2, d1, hd1, hdeep1⟩
    · exfalso
      simp only [List.foldl_cons] at hcount
      rw [b2, countKind_append] at hcount
      omega
    · have hcount' : countKind .synError ((rest.foldl (step none) (step none s l)).diags)
          = countKind .synError (step none s l).diags := by
        rw [b2, countKind_append]
        simp only [List.foldl_cons] at hcount
        rw [b2, countKind_append, hq1] at hcount
        omega
      obtain ⟨g1, g2, d2, hd2, hdeep2⟩ :=
        ih (step none s l) hq2 (fun x hx => hall x (by simp [hx])) hcount'
      simp only [List.foldl_cons]
      refine ⟨by rw [g1, hq1], g2, d1 ++ d2, by rw [hd2, hd1, List.append_assoc], ?_⟩
      intro y hy
      rcases List.mem_append.mp hy with h | h
      · exact hdeep1 y h
      · exact hdeep2 y h

/-- C6 witness: the empty edge set is acyclic and yields no cycles. -/
theorem c6_cycle_detection_witness : graphCycles [[65], [66]] [] = [] := by
  apply c6_cycle_detection.2 [[65], [66]] []
  intro c hc
  cases c with
  | nil => exact hc
  | cons x xs =>
    have hc' : List.Chain (fun a b => b ∈ succsOf [[65], [66]] [] a) x (xs ++ [x]) := hc
    cases hcons : xs ++ [x] with
    | nil => simp at hcons
    | cons y ys =>
      rw [hcons] at hc'
      cases hc' with
      | cons hadj _ => simp [succsOf] at hadj

/-- C2, counterexample to the claim as stated: the file
`def a():` / `    return 1` / `x = 1` is valid (no diagnostics, symbols
`a` and `x`); corrupting the single header into `def a()` (one malformed
statement) yields exactly one SyntaxError but also discards the top-level
assignment `x = 1` written after the malformed statement's block, because
an assignment is not a resynchronization boundary; so a symbol declared
after the malformed statement does not remain present, refuting the
claim. -/
theorem c2_counterexample :
    countKind .synError
      (processLines (lexLines (strCodes "def a():\n    return 1\nx = 1\n"))).diags = 0 ∧
    symsP (processLines (lexLines (strCodes "def a():\n    return 1\nx = 1\n"))).syms =
      [([97], SymKind.func, [40, 41], 0), ([120], SymKind.var, [], 0)] ∧
    (processLines (lexLines (strCodes "def a()\n    return 1\nx = 1\n"))).diags.map
      (fun x => x.kind) = [DiagKind.synError] ∧
    (processLines (lexLines (strCodes "def a()\n    return 1\nx = 1\n"))).syms = [] :=
  ⟨by decide, by decide, by decide, by decide⟩

/-- C2 (amended): recovery locality holds up to the resynchronization rule
of the spec's own state machine. In a file `pre ++ [hdr] ++ block ++ post`
with no SyntaxError, where `hdr` is a top-level `def` header, `block` is
its indented body, and `post` is empty or resumes at a top-level header
line (a resynchronization boundary), corrupting `hdr` into a malformed
line changes the output exactly as follows: the diagnostics go from none
to exactly one SyntaxError, the corrupted header's own symbol and the
symbols of its block (all at positive depth) disappear, and the
position-free symbols contributed by `pre` and by `post` are unchanged. -/
theorem c2_recovery_locality
    (pre block post : List Line) (hdr bad : Line) (n sg : Chars)
    (hhdr : classify hdr.content = .defH n sg) (hhi : hdr.indent = 0)
    (hbad : classify bad.content = .malformed) (hbi : bad.indent = 0)
    (hblock : ∀ l ∈ block, 0 < l.indent)
    (hpost : post = [] ∨ ∃ p ps, post = p :: ps ∧ p.indent = 0 ∧
      isHdrL (classify p.content) = true)
    (hvalid : countKind .synError (processLines (pre ++ hdr :: (block ++ post))).diags = 0) :
    (processLines (pre ++ hdr :: (block ++ post))).diags = [] ∧
    (processLines (pre ++ bad :: (block ++ post))).diags.map (fun x => x.kind) =
      [DiagKind.synError] ∧
    ∃ d,
      symsP (processLines (pre ++ hdr :: (block ++ post))).syms =
        symsP (processLines pre).syms ++ [(n, SymKind.func, sg, 0)] ++ d ++
          symsP (processLines post).syms ∧
      (∀ y ∈ d, 0 < y.2.2.2) ∧
      symsP (processLines (pre ++ bad :: (block ++ post))).syms =
        symsP (processLines pre).syms ++ symsP (processLines post).syms := by
  have hPLd : ∀ ls : List Line, (processLines ls).diags = (ls.foldl (step none) initSt).diags := by
    intro ls
    simp [processLines, runLines, finalizeSt_diags]
  have hPLs : ∀ ls : List Line, (processLines ls).syms = (ls.foldl (step none) initSt).syms := by
    intro ls
    simp [processLines, runLines, finalizeSt_syms]
  have hsplitF : (pre ++ hdr :: (block ++ post)).foldl (step none) initSt =
      post.foldl (step none)
        (block.foldl (step none) (step none (pre.foldl (step none) initSt) hdr)) := by
    rw [List.foldl_append, List.foldl_cons, List.foldl_append]
  have hsplitB : (pre ++ bad :: (block ++ post)).foldl (step none) initSt =
      post.foldl (step none)
        (block.foldl (step none) (step none (pre.foldl (step none) initSt) bad)) := by
    rw [List.foldl_append, List.foldl_cons, List.foldl_append]
  have hsplitPre : (pre ++ hdr :: (block ++ post)).foldl (step none) initSt =
      (hdr :: (block ++ post)).foldl (step none) (pre.foldl (step none) initSt) := by
    rw [List.foldl_append]
  set A := pre.foldl (step none) initSt with hA
  have hvalid' : countKind .synError
      (((pre ++ hdr :: (block ++ post)).foldl (step none) initSt).diags) = 0 := by
    rw [← hPLd]
    exact hvalid
  have hFd : ((pre ++ hdr :: (block ++ post)).foldl (step none) initSt).diags = [] := by
    have hq := fold_none_quiet (pre ++ hdr :: (block ++ post)) initSt rfl
      (by rw [hvalid']; rfl)
    exact hq.1.trans rfl
  obtain ⟨ysr, dsr, -, hrD, -, -, -, -⟩ := foldl_step_ext none (hdr :: (block ++ post)) A
  have hAd : A.diags = [] := by
    have h2 := hFd
    rw [hsplitPre, hrD] at h2
    exact (List.append_eq_nil.mp h2).1
  have hcnt0 : countKind .synError ((pre.foldl (step none) initSt)).diags
      = countKind .synError initSt.diags := by
    rw [← hA, hAd]
    rfl
  have hArecov : A.recov = none := (fold_none_quiet pre initSt rfl hcnt0).2
  have hk1 : isHdrL (classify hdr.content) = true := by
    rw [hhdr]
    rfl
  obtain ⟨e1, e2, e3, -⟩ := step_header0 A hdr hArecov hhi hk1
  have hBd : (step none A hdr).diags = [] := by
    rw [e2, hAd]
  have hCd : (block.foldl (step none) (step none A hdr)).diags = [] := by
    obtain ⟨ysp, dsp, -, hpD, -, -, -, -⟩ :=
      foldl_step_ext none post (block.foldl (step none) (step none A hdr))
    have h2 := hFd
    rw [hsplitF, hpD] at h2
    exact (List.append_eq_nil.mp h2).1
  have hcntC : countKind .synError ((block.foldl (step none) (step none A hdr)).diags)
      = countKind .synError (step none A hdr).diags := by
    rw [hCd, hBd]
  obtain ⟨f1, f2, dF, hdF, hdFdeep⟩ := fold_deep block (step none A hdr) e3 hblock hcntC
  obtain ⟨m1, m2, m3, -⟩ := step_malformed0 A bad hArecov hbi hbad
  have hnb : ∀ l ∈ block, isBoundary 0 l = false :=
    fun l hl => isBoundary_pos_indent 0 l (hblock l hl) rfl
  obtain ⟨g1, g2, g3, -⟩ := fold_discard block (step none A bad) 0 A.line m3 hnb
  have hPsyms : symsP (processLines pre).syms = symsP A.syms := by
    rw [hPLs, ← hA]
  have hBsymP : symsP (step none A hdr).syms = symsP A.syms ++ [(n, SymKind.func, sg, 0)] := by
    rw [e1, symsP_append]
    simp [headerDelta, hhdr, symsP, symP]
  have hdepth : ∀ y ∈ symsP dF, 0 < y.2.2.2 := by
    intro y hy
    simp only [symsP] at hy
    obtain ⟨x, hx, rfl⟩ := List.mem_map.mp hy
    exact hdFdeep x hx
  rcases hpost with hemp | ⟨p, ps, hpp, hpi, hpk⟩
  · subst hemp
    simp only [List.foldl_nil] at hsplitF hsplitB
    have hpostsyms : symsP (processLines ([] : List Line)).syms = [] := by
      rw [hPLs]
      rfl
    refine ⟨?_, ?_, symsP dF, ?_, hdepth, ?_⟩
    · rw [hPLd]
      exact hFd
    · rw [hPLd, hsplitB, g2, m2, hAd]
      simp
    · rw [hPLs, hsplitF, hdF, symsP_append, hBsymP, hPsyms, hpostsyms]
      simp [List.append_assoc]
    · rw [hPLs, hsplitB, g1, m1, hPsyms, hpostsyms]
      simp
  · subst hpp
    simp only [List.foldl_cons] at hsplitF hsplitB
    obtain ⟨q1, q2, q3, q4⟩ :=
      step_header0 (block.foldl (step none) (step none A hdr)) p f2 hpi hpk
    have hCrec : (block.foldl (step none) (step none A bad)).recov = some (0, A.line) := by
      rw [g3, m3]
    obtain ⟨r1, r2, r3, r4⟩ :=
      step_header0_rec (block.foldl (step none) (step none A bad)) p 0 A.line hCrec
        (isBoundary_header0 p hpi hpk) hpi hpk
    obtain ⟨t1, t2, t3, t4⟩ := step_header0 initSt p rfl hpi hpk
    obtain ⟨dps1, dk1, u1, u2, u3, u4⟩ :=
      fold_par ps (step none (block.foldl (step none) (step none A hdr)) p)
        (step none initSt p) (q4.trans t4.symm) (by simp [recovSig, q3, t3])
    obtain ⟨dps2, dk2, v1, v2, v3, v4⟩ :=
      fold_par ps (step none (block.foldl (step none) (step none A bad)) p)
        (step none initSt p) (r4.trans t4.symm) (by simp [recovSig, r3, t3])
    have hdps : dps1 = dps2 := List.append_cancel_left (u2.symm.trans v2)
    have hdk : dk1 = dk2 := List.append_cancel_left (u4.symm.trans v4)
    have hDdiags : (step none (block.foldl (step none) (step none A hdr)) p).diags = [] := by
      rw [q2, f1, hBd]
    have hFpD : (ps.foldl (step none)
        (step none (block.foldl (step none) (step none A hdr)) p)).diags = [] := by
      rw [← hsplitF]
      exact hFd
    have hdk1 : dk1 = [] := by
      have h := u3
      rw [hFpD, hDdiags] at h
      simpa using h.symm
    have t1P : symsP (step none initSt p).syms = symsP (headerDelta p 0) := by
      rw [t1]
      rfl
    have hQ : symsP (processLines (p :: ps)).syms = symsP (headerDelta p 0) ++ dps1 := by
      rw [hPLs]
      simp only [List.foldl_cons]
      rw [u2, t1P]
    have hHD : symsP (headerDelta p ((block.foldl (step none) (step none A hdr)).line)) =
        symsP (headerDelta p 0) := headerDelta_symsP p _ 0
    have hHD' : symsP (headerDelta p ((block.foldl (step none) (step none A bad)).line)) =
        symsP (headerDelta p 0) := headerDelta_symsP p _ 0
    refine ⟨?_, ?_, symsP dF, ?_, hdepth, ?_⟩
    · rw [hPLd]
      exact hFd
    · rw [hPLd, hsplitB, v3, r2, g2, m2, hAd, ← hdk, hdk1]
      simp
    · rw [hPLs, hsplitF, u1, q1, symsP_append, hHD, hdF, symsP_append, hBsymP, hPsyms, hQ]
      simp [List.append_assoc]
    · rw [hPLs, hsplitB, v1, r1, symsP_append, hHD', g1, m1, ← hdps, hPsyms, hQ]
      simp [List.append_assoc]

/-- C2 witness: the amended locality theorem applied to the concrete file
`def a():` / `    return 1` / `def b():` / `    pass`, whose post-block
text resumes at a top-level `def` boundary; corrupting the first header
into `def a()` removes exactly `a` and its block while `b` survives. -/
theorem c2_recovery_locality_witness :
    (processLines ([] ++ mkLine (strCodes "def a():") ::
        ([mkLine (strCodes "    return 1")] ++
          [mkLine (strCodes "def b():"), mkLine (strCodes "    pass")]))).diags = [] ∧
    (processLines ([] ++ mkLine (strCodes "def a()") ::
        ([mkLine (strCodes "    return 1")] ++
          [mkLine (strCodes "def b():"), mkLine (strCodes "    pass")]))).diags.map
      (fun x => x.kind) = [DiagKind.synError] ∧
    ∃ d,
      symsP (processLines ([] ++ mkLine (strCodes "def a():") ::
          ([mkLine (strCodes "    return 1")] ++
            [mkLine (strCodes "def b():"), mkLine (strCodes "    pass")]))).syms =
        symsP (processLines ([] : List Line)).syms ++ [([97], SymKind.func, [40, 41], 0)] ++
          d ++
          symsP (processLines [mkLine (strCodes "def b():"),
            mkLine (strCodes "    pass")]).syms ∧
      (∀ y ∈ d, 0 < y.2.2.2) ∧
      symsP (processLines ([] ++ mkLine (strCodes "def a()") ::
          ([mkLine (strCodes "    return 1")] ++
            [mkLine (strCodes "def b():"), mkLine (strCodes "    pass")]))).syms =
        symsP (processLines ([] : List Line)).syms ++
          symsP (processLines [mkLine (strCodes "def b():"),
            mkLine (strCodes "    pass")]).syms :=
  c2_recovery_locality [] [mkLine (strCodes "    return 1")]
    [mkLine (strCodes "def b():"), mkLine (strCodes "    pass")]
    (mkLine (strCodes "def a():")) (mkLine (strCodes "def a()")) [97] [40, 41]
    (by decide) (by decide) (by decide) (by decide) (by decide)
    (Or.inr ⟨mkLine (strCodes "def b():"), [mkLine (strCodes "    pass")], rfl,
      by decide, by decide⟩)
    (by decide)

end Insight


